import Mathlib

/-!
Verification of the CSDL-to-OpenAPI converter (`csdl2openapi`).

This file shallowly embeds the converter's schema/path/parameter synthesis
functions over an explicit model of CSDL documents and JSON values, and proves
or refutes the frozen specification claims about them.

JavaScript objects are modelled as ordered association lists with
assignment-style update (replace in place if the key exists, append
otherwise); JavaScript `undefined` is modelled with `Option`; numbers are
modelled with `ℚ` (exact arithmetic standing for the formulas the source
computes); the mutable `requiredSchemas` / `typesToInline` state is threaded
explicitly.
-/

namespace Csdl2OpenApi

/-- JSON-like value, used both for emitted OpenAPI fragments and for
annotation payloads read from the model. -/
inductive SVal where
  | nullV
  | boolV (b : Bool)
  | numV (q : ℚ)
  | strV (s : String)
  | arrV (xs : List SVal)
  | objV (fields : List (String × SVal))

/-- First-match association-list lookup (JS property read). -/
def alookup {α : Type} : List (String × α) → String → Option α
  | [], _ => none
  | (k, v) :: rest, key => if k = key then some v else alookup rest key

/-- JS assignment on an object: replace the value in place when the key is
present, append the pair otherwise. -/
def setV {α : Type} : List (String × α) → String → α → List (String × α)
  | [], key, v => [(key, v)]
  | (k, w) :: rest, key, v =>
      if k = key then (k, v) :: rest else (k, w) :: setV rest key v

/-- Read a key of an object value (non-objects have no keys). -/
def SVal.getKey : SVal → String → Option SVal
  | .objV fs, k => alookup fs k
  | _, _ => none

/-- JS assignment `s[k] = v` on an object value. -/
def SVal.setKey : SVal → String → SVal → SVal
  | .objV fs, k, v => .objV (setV fs k v)
  | s, _, _ => s

/-- The key list of an object's field list. -/
def keysOf {α : Type} (fs : List (String × α)) : List String := fs.map (·.1)

/-- Whether a value is an object. -/
def SVal.isObj : SVal → Bool
  | .objV _ => true
  | _ => false

/-- JS truthiness of a value. -/
def svalTruthy : SVal → Bool
  | .nullV => false
  | .boolV b => b
  | .numV q => q != 0
  | .strV s => s != ""
  | .arrV _ => true
  | .objV _ => true

/-- `10 ** e` of the source, over exact rationals. -/
def pow10 (e : Int) : ℚ :=
  if 0 ≤ e then ((10 : ℚ) ^ e.toNat) else 1 / ((10 : ℚ) ^ (-e).toNat)

/-- Split a character list at its last dot, if any. -/
def splitLastDotCh : List Char → Option (List Char × List Char)
  | [] => none
  | c :: rest =>
      match splitLastDotCh rest with
      | some (q, n) => some (c :: q, n)
      | none => if c = '.' then some ([], rest) else none

/-- `nameParts` of the source: split a qualified name at its last dot;
a name without a dot yields an empty qualifier and the whole string. -/
def nameParts (s : String) : String × String :=
  match splitLastDotCh s.toList with
  | some (q, n) => (String.mk q, String.mk n)
  | none => ("", s)

/-- `typename.indexOf('.') != -1` of the source. -/
def hasDot (s : String) : Bool := s.toList.contains '.'

/-- Structural character-list prefix test. -/
def isPrefixCh : List Char → List Char → Bool
  | [], _ => true
  | _ :: _, [] => false
  | a :: as, b :: bs => a = b && isPrefixCh as bs

/-- `String.startsWith`, computed structurally on the character lists. -/
def strStartsWith (s pre : String) : Bool := isPrefixCh pre.toList s.toList

/-- `String.endsWith`, computed structurally on the character lists. -/
def strEndsWith (s suf : String) : Bool := isPrefixCh suf.toList.reverse s.toList.reverse

/-- The single-quote character, used by the OData URL literal syntax. -/
def sq : String := (Char.ofNat 39).toString

/-- A model element (a property, parameter, or the element-facet view of a
type): its `$`-structural fields plus the annotations the converter reads.
Annotation record values (`Core.Example.Value`, `Validation.AllowedValues`
record `Value`s) are modelled by the extracted payload directly. -/
structure Element where
  type? : Option String := none
  kind? : Option String := none
  coll : Bool := false
  nullable : Bool := false
  maxLength? : Option Nat := none
  precision? : Option Int := none
  scale? : Option Int := none
  defaultV? : Option SVal := none
  containsTarget : Bool := false
  onDelete? : Option String := none
  computed : Bool := false
  computedDefault : Bool := false
  permissions? : Option String := none
  immutable : Bool := false
  isKeyAnn : Bool := false
  fieldControl? : Option String := none
  descAnn? : Option String := none
  longDesc? : Option String := none
  exampleV? : Option SVal := none
  allowedVals? : Option (List SVal) := none
  patternAnn? : Option String := none
  vMax? : Option ℚ := none
  vMaxExcl : Bool := false
  vMin? : Option ℚ := none
  vMinExcl : Bool := false
  jsonSchemaAnn? : Option SVal := none
  odmOidRef? : Option String := none
  erAnns : List (String × SVal) := []

/-- A type declaration of a CSDL schema: kind, base type, key list,
properties (the identifier-keyed members), plus its element-facet view
(`elem`, used by `schemaForTypeDefinition`) and type-level annotations. -/
structure TypeDecl where
  kind? : Option String := none
  baseType? : Option String := none
  keyList : List String := []
  abstractFlag : Bool := false
  underlyingType? : Option String := none
  props : List (String × Element) := []
  elem : Element := {}
  odmRoot? : Option SVal := none
  odmEntityName? : Option SVal := none
  odmOid? : Option SVal := none
  erAnns : List (String × SVal) := []
  openapiExt : List (String × SVal) := []

/-- The CSDL document: version marker, entity container name, namespaces
with their type declarations, and the per-namespace container-child names
annotated `Capabilities.CountRestrictions/Countable: false`. -/
structure Csdl where
  version : String := "4.0"
  entityContainer? : Option String := none
  schemaList : List (String × List (String × TypeDecl)) := []
  nonCountable : List (String × List String) := []

/-- Conversion-wide read-only context: the document, the alias-to-namespace
map, the external-document URL map, and the derived-types map. -/
structure Ctx where
  csdl : Csdl := {}
  nsMap : List (String × String) := []
  nsUrl : List (String × String) := []
  derived : List (String × List String) := []

/-- A `requiredSchemas` work-list entry. -/
structure RS where
  ns : String
  name : String
  suffix : String

/-- The threaded mutable state: `requiredSchemas.used`, the ordered
`requiredSchemas.list`, and the `typesToInline.geoPoint` flag. -/
structure St where
  used : List String := []
  list : List RS := []
  geoPoint : Bool := false

/-- `modelElement` of the source: look the qualified name up in the
document, trying the qualifier both literally and alias-resolved. -/
def modelElement (ctx : Ctx) (qname : String) : Option TypeDecl :=
  let p := nameParts qname
  let sch :=
    match alookup ctx.csdl.schemaList p.1 with
    | some s => some s
    | none =>
        match alookup ctx.nsMap p.1 with
        | some ns => alookup ctx.csdl.schemaList ns
        | none => none
  match sch with
  | some s => alookup s p.2
  | none => none

/-- `ref` of the source: build a Reference Object for a type name and, for a
dotted local name not seen before, register it on the work-list. An unmapped
qualifier concatenates as the string rendering of JS `undefined`. -/
def refFn (ctx : Ctx) (typename suffix : String) (st : St) : SVal × St :=
  if hasDot typename then
    let p := nameParts typename
    let nsp := (alookup ctx.nsMap p.1).getD "undefined"
    let name := nsp ++ "." ++ p.2
    let url := (alookup ctx.nsUrl nsp).getD ""
    let key := name ++ suffix
    let st' :=
      if url = "" ∧ st.used.contains key = false then
        { st with used := st.used ++ [key], list := st.list ++ [⟨nsp, p.2, suffix⟩] }
      else st
    let url2 := if strEndsWith url ".xml" then url.dropRight 3 ++ "openapi3.json" else url
    (.objV [("$ref", .strV (url2 ++ "#/components/schemas/" ++ name ++ suffix))], st')
  else
    (.objV [("$ref", .strV ("#/components/schemas/" ++ typename ++ suffix))], st)

/-- The `$ref` string `ref` builds for a type name and suffix. -/
def refString (ctx : Ctx) (typename suffix : String) : String :=
  if hasDot typename then
    let p := nameParts typename
    let nsp := (alookup ctx.nsMap p.1).getD "undefined"
    let name := nsp ++ "." ++ p.2
    let url := (alookup ctx.nsUrl nsp).getD ""
    let url2 := if strEndsWith url ".xml" then url.dropRight 3 ++ "openapi3.json" else url
    url2 ++ "#/components/schemas/" ++ name ++ suffix
  else "#/components/schemas/" ++ typename ++ suffix

/-- The entity-relationship annotation table (`ER_ANNOTATIONS`). -/
def erTable : List (String × String) :=
  [("@EntityRelationship.entityType", "x-entity-relationship-entity-type"),
   ("@EntityRelationship.entityIds", "x-entity-relationship-entity-ids"),
   ("@EntityRelationship.propertyType", "x-entity-relationship-property-type"),
   ("@EntityRelationship.reference", "x-entity-relationship-reference"),
   ("@EntityRelationship.compositeReferences", "x-entity-relationship-composite-references"),
   ("@EntityRelationship.temporalIds", "x-entity-relationship-temporal-ids"),
   ("@EntityRelationship.temporalReferences", "x-entity-relationship-temporal-references"),
   ("@EntityRelationship.referencesWithConstantIds", "x-entity-relationship-references-with-constant-ids")]

/-- Wrap a bare reference into an `allOf` before attaching sibling
keywords (the `if (s.$ref) s = { allOf: [s] }` idiom of the source). -/
def wrapIfRef (s : SVal) : SVal :=
  if (s.getKey "$ref").isSome then .objV [("allOf", .arrV [s])] else s

/-- The OData URL literal value prefix by type (`pathValuePrefix` applied
without the key-as-segment flag, as `getSchema` calls it). -/
def pathValuePre (t? : Option String) : String :=
  match t? with
  | some t =>
      if ["Edm.Int64", "Edm.Int32", "Edm.Int16", "Edm.SByte", "Edm.Byte",
          "Edm.Double", "Edm.Single", "Edm.Date", "Edm.DateTimeOffset",
          "Edm.Guid"].contains t then "" else sq
  | none => sq

/-- The OData URL literal value suffix by type (`pathValueSuffix` applied
without the key-as-segment flag). -/
def pathValueSuf (t? : Option String) : String := pathValuePre t?

/-- Normalize a string-valued annotation through JS truthiness (the empty
string is falsy). -/
def strT (s? : Option String) : Option String :=
  match s? with
  | some v => if v = "" then none else some v
  | none => none

/-- The type-dispatch switch of `getSchema` (the live monolith version). -/
def baseSchema (ctx : Ctx) (e : Element) (suffix : String) (st : St) : SVal × St :=
  match e.type? with
    | some "Edm.AnnotationPath" | some "Edm.ModelElementPath"
    | some "Edm.NavigationPropertyPath" | some "Edm.PropertyPath" =>
        (.objV [("type", .strV "string")], st)
    | some "Edm.Binary" =>
        let s0 : List (String × SVal) :=
          [("type", .strV "string"), ("format", .strV "base64url")]
        let s1 :=
          match e.maxLength? with
          | some n =>
              if n ≠ 0 then s0 ++ [("maxLength", .numV (((4 * n + 2) / 3 : ℕ) : ℚ))]
              else s0
          | none => s0
        (.objV s1, st)
    | some "Edm.Boolean" => (.objV [("type", .strV "boolean")], st)
    | some "Edm.Byte" =>
        (.objV [("type", .strV "integer"), ("format", .strV "uint8")], st)
    | some "Edm.Date" =>
        (.objV [("type", .strV "string"), ("format", .strV "date"),
                ("example", .strV "2017-04-13")], st)
    | some "Edm.DateTime" | some "Edm.DateTimeOffset" =>
        let frac :=
          match e.precision? with
          | none => ""
          | some p =>
              if p = 0 then "" else "." ++ String.mk (List.replicate p.toNat '0')
        (.objV [("type", .strV "string"), ("format", .strV "date-time"),
                ("example", .strV ("2017-04-13T15:51:04" ++ frac ++ "Z"))], st)
    | some "Edm.Decimal" =>
        let inner0 : List (String × SVal) :=
          [("type", .strV "number"), ("format", .strV "decimal")]
        let inner1 :=
          match e.scale? with
          | some sc =>
              inner0 ++ [("multipleOf", .numV (if sc ≤ 0 then pow10 (-sc) else 1 / pow10 sc))]
          | none => inner0
        let inner2 :=
          match e.precision? with
          | some p =>
              if p < 16 then
                let sc0 : Int := e.scale?.getD 0
                let limit := pow10 (p - sc0)
                let delta := pow10 (-sc0)
                inner1 ++ [("maximum", .numV (limit - delta)),
                           ("minimum", .numV (-(limit - delta)))]
              else inner1
          | none => inner1
        let top0 : List (String × SVal) :=
          [("anyOf", .arrV [.objV inner2, .objV [("type", .strV "string")]]),
           ("example", .numV 0)]
        let top1 :=
          match e.precision? with
          | some p => top0 ++ [("x-sap-precision", .numV (p : ℚ))]
          | none => top0
        let top2 :=
          match e.scale? with
          | some sc => top1 ++ [("x-sap-scale", .numV (sc : ℚ))]
          | none => top1
        (.objV top2, st)
    | some "Edm.Double" =>
        (.objV [("anyOf", .arrV [.objV [("type", .strV "number"), ("format", .strV "double")],
                                 .objV [("type", .strV "string")]]),
                ("example", .numV (3.14 : ℚ))], st)
    | some "Edm.Duration" =>
        (.objV [("type", .strV "string"), ("format", .strV "duration"),
                ("example", .strV "P4DT15H51M04S")], st)
    | some "Edm.GeographyPoint" | some "Edm.GeometryPoint" =>
        let r := refFn ctx "geoPoint" "" st
        (r.1, { r.2 with geoPoint := true })
    | some "Edm.Guid" =>
        (.objV [("type", .strV "string"), ("format", .strV "uuid"),
                ("example", .strV "01234567-89ab-cdef-0123-456789abcdef")], st)
    | some "Edm.Int16" =>
        (.objV [("type", .strV "integer"), ("format", .strV "int16")], st)
    | some "Edm.Int32" =>
        (.objV [("type", .strV "integer"), ("format", .strV "int32")], st)
    | some "Edm.Int64" =>
        (.objV [("anyOf", .arrV [.objV [("type", .strV "integer"), ("format", .strV "int64")],
                                 .objV [("type", .strV "string")]]),
                ("example", .strV "42")], st)
    | some "Edm.PrimitiveType" =>
        (.objV [("anyOf", .arrV [.objV [("type", .strV "boolean")],
                                 .objV [("type", .strV "number")],
                                 .objV [("type", .strV "string")]])], st)
    | some "Edm.SByte" =>
        (.objV [("type", .strV "integer"), ("format", .strV "int8")], st)
    | some "Edm.Single" =>
        (.objV [("anyOf", .arrV [.objV [("type", .strV "number"), ("format", .strV "float")],
                                 .objV [("type", .strV "string")]]),
                ("example", .numV (3.14 : ℚ))], st)
    | some "Edm.Stream" =>
        (match e.jsonSchemaAnn? with
         | some js => (js, st)
         | none => (.objV [("type", .strV "string"), ("format", .strV "base64url")], st))
    | some "Edm.TimeOfDay" =>
        (.objV [("type", .strV "string"), ("format", .strV "time"),
                ("example", .strV "15:51:04")], st)
    | some "Edm.String" | none =>
        let s0 : List (String × SVal) := [("type", .strV "string")]
        let s1 :=
          match e.maxLength? with
          | some n => if n ≠ 0 then s0 ++ [("maxLength", .numV (n : ℚ))] else s0
          | none => s0
        let s2 :=
          match e.patternAnn? with
          | some pat => s1 ++ [("pattern", .strV pat)]
          | none => s1
        (.objV s2, st)
    | some t =>
        if strStartsWith t "Edm." then (.objV [], st)
        else
          let isStructured :=
            match modelElement ctx t with
            | some td => td.kind? == some "ComplexType" || td.kind? == some "EntityType"
            | none => false
          let r := refFn ctx t (if isStructured then suffix else "") st
          let s :=
            match e.maxLength? with
            | some n =>
                if n ≠ 0 then SVal.objV [("allOf", .arrV [r.1]), ("maxLength", .numV (n : ℚ))]
                else r.1
            | none => r.1
          (s, r.2)

/-- The `allowedValues` step: attach the `enum` list of allowed values. -/
def applyAllowedVals (e : Element) (s : SVal) : SVal :=
  match e.allowedVals? with
  | some vs => s.setKey "enum" (.arrV vs)
  | none => s

/-- The nullability step: wrap a bare reference in `allOf`, then set
`nullable: true`. -/
def applyNullable (e : Element) (s : SVal) : SVal :=
  if e.nullable then (wrapIfRef s).setKey "nullable" (.boolV true) else s

/-- The `$DefaultValue` step. -/
def applyDefault (e : Element) (s : SVal) : SVal :=
  match e.defaultV? with
  | some v => (wrapIfRef s).setKey "default" v
  | none => s

/-- The `Core.Example` step. -/
def applyExample (e : Element) (s : SVal) : SVal :=
  match e.exampleV? with
  | some v => (wrapIfRef s).setKey "example" v
  | none => s

/-- The function-parameter path-literal rewriting step (`forFunction`). -/
def applyFuncLiteral (e : Element) (forFunction : Bool) (s : SVal) : SVal :=
  if forFunction then
    let s :=
      match s.getKey "example" with
      | some (.strV ex) =>
          s.setKey "example" (.strV (pathValuePre e.type? ++ ex ++ pathValueSuf e.type? ++ " "))
      | _ => s
    let s :=
      match s.getKey "pattern" with
      | some (.strV pat) =>
          let pre := pathValuePre e.type?
          let suf := pathValueSuf e.type?
          let pat1 := if strStartsWith pat "^" then "^ " ++ pre ++ " (" ++ pat.drop 1 else pat
          let pat2 := if strEndsWith pat1 "$" then pat1.dropRight 1 ++ ")" ++ suf ++ " $" else pat1
          s.setKey "pattern" (.strV pat2)
      | _ =>
          match e.type? with
          | none => s.setKey "pattern" (.strV ("^" ++ sq ++ "([^" ++ sq ++ "]|" ++ sq ++ sq ++ ")*" ++ sq ++ "$"))
          | some "Edm.String" =>
              s.setKey "pattern" (.strV ("^" ++ sq ++ "([^" ++ sq ++ "]|" ++ sq ++ sq ++ ")*" ++ sq ++ "$"))
          | some _ => s
    if e.nullable then
      let s := s.setKey "default" (.strV "null")
      match s.getKey "pattern" with
      | some (.strV pat) =>
          let pat1 := if strStartsWith pat "^" then "^(null|" ++ pat.drop 1 else pat
          let pat2 := if strEndsWith pat1 "$" then pat1.dropRight 1 ++ ")$" else pat1
          s.setKey "pattern" (.strV pat2)
      | _ => s
    else s
  else s

/-- The `Validation.Maximum` step: written onto the first `anyOf`
alternative when one exists. -/
def applyVMax (e : Element) (s : SVal) : SVal :=
  match e.vMax? with
  | some m =>
      let s := wrapIfRef s
      let s :=
        match s.getKey "anyOf" with
        | some (.arrV (h :: t)) => s.setKey "anyOf" (.arrV (h.setKey "maximum" (.numV m) :: t))
        | _ => s
      if e.vMaxExcl then s.setKey "exclusiveMaximum" (.boolV true) else s
  | none => s

/-- The `Validation.Minimum` step. -/
def applyVMin (e : Element) (s : SVal) : SVal :=
  match e.vMin? with
  | some m =>
      let s := wrapIfRef s
      let s :=
        match s.getKey "anyOf" with
        | some (.arrV (h :: t)) => s.setKey "anyOf" (.arrV (h.setKey "minimum" (.numV m) :: t))
        | _ => s
      if e.vMinExcl then s.setKey "exclusiveMinimum" (.boolV true) else s
  | none => s

/-- The `$Collection` wrapping step. -/
def applyCollection (e : Element) (s : SVal) : SVal :=
  if e.coll then SVal.objV [("type", .strV "array"), ("items", s)] else s

/-- The description step (skipped in parameter context). -/
def applyDescription (e : Element) (forParameter : Bool) (s : SVal) : SVal :=
  if forParameter then s
  else
    match strT e.longDesc? with
    | some d => (wrapIfRef s).setKey "description" (.strV d)
    | none => s

/-- The `@ODM.oidReference` passthrough step. -/
def applyOdmOidRef (e : Element) (s : SVal) : SVal :=
  match strT e.odmOidRef? with
  | some n => s.setKey "x-sap-odm-oid-reference-entity-name" (.strV n)
  | none => s

/-- One step of the entity-relationship extension passthrough loop. -/
def erStep (acc : SVal) (kv : String × SVal) : SVal :=
  if strStartsWith kv.1 "@EntityRelationship" then
    match alookup erTable kv.1 with
    | some ext => acc.setKey ext kv.2
    | none => acc
  else acc

/-- The entity-relationship extension passthrough step of `getSchema`. -/
def erPassthrough (anns : List (String × SVal)) (s : SVal) : SVal :=
  anns.foldl erStep s

/-- `getSchema` of the source (the live monolith version): dispatch on the
element's `$Type`, then apply allowed values, nullability, default, example,
function-literal rewriting, validation bounds, collection wrapping,
description and extension passthrough, in source order. -/
def getSchema (ctx : Ctx) (e : Element) (suffix : String)
    (forParameter forFunction : Bool) (st : St) : SVal × St :=
  let base := baseSchema ctx e suffix st
  let s := applyAllowedVals e base.1
  let s := applyNullable e s
  let s := applyDefault e s
  let s := applyExample e s
  let s := applyFuncLiteral e forFunction s
  let s := applyVMax e s
  let s := applyVMin e s
  let s := applyCollection e s
  let s := applyDescription e forParameter s
  let s := applyOdmOidRef e s
  let s := erPassthrough e.erAnns s
  (s, base.2)

/-- Read a string-valued key. -/
def getStr (s : SVal) (k : String) : Option String :=
  match s.getKey k with | some (.strV v) => some v | _ => none

/-- Read a number-valued key. -/
def getNum (s : SVal) (k : String) : Option ℚ :=
  match s.getKey k with | some (.numV v) => some v | _ => none

/-- Read a Boolean-valued key. -/
def getBool (s : SVal) (k : String) : Option Bool :=
  match s.getKey k with | some (.boolV v) => some v | _ => none

/-- Read an array-valued key. -/
def getArr (s : SVal) (k : String) : Option (List SVal) :=
  match s.getKey k with | some (.arrV v) => some v | _ => none

/-- Read an object-valued key. -/
def getObj (s : SVal) (k : String) : Option (List (String × SVal)) :=
  match s.getKey k with | some (.objV v) => some v | _ => none

/-- The first `anyOf` alternative of a schema (its numeric member for the
number-or-string unions). -/
def anyOfHead (s : SVal) : SVal :=
  match s.getKey "anyOf" with | some (.arrV (h :: _)) => h | _ => .nullV

/-- The `anyOf` alternative at an index. -/
def anyOfIdx (s : SVal) (i : Nat) : SVal :=
  match s.getKey "anyOf" with
  | some (.arrV xs) => (xs.get? i).getD .nullV
  | _ => .nullV

/-- The property names of a schema object's `properties` map. -/
def propKeys (s : SVal) : List String :=
  match s.getKey "properties" with
  | some (.objV fs) => keysOf fs
  | _ => []

/-- The string entries of a schema object's `required` list. -/
def reqStrs (s : SVal) : List String :=
  match s.getKey "required" with
  | some (.arrV l) => l.filterMap (fun v => match v with | .strV x => some x | _ => none)
  | _ => []

/-- Total number of type declarations in the document; bounds the length of
any acyclic base-type chain. -/
def typeCount (ctx : Ctx) : Nat :=
  (ctx.csdl.schemaList.map (fun p => p.2.length)).foldr (· + ·) 0

/-- `propertiesOfStructuredType` of the source: flatten base-type properties
first, then overlay the type's own identifier-keyed members. The source
recurses along `$BaseType` unconditionally; base chains are acyclic by
construction, so a fuel of the document's type count reproduces it. -/
def propsOfTypeFuel (ctx : Ctx) : Nat → Option TypeDecl → List (String × Element)
  | _, none => []
  | 0, some t => t.props.foldl (fun acc kv => setV acc kv.1 kv.2) []
  | fuel + 1, some t =>
      let base :=
        match t.baseType? with
        | some b => propsOfTypeFuel ctx fuel (modelElement ctx b)
        | none => []
      t.props.foldl (fun acc kv => setV acc kv.1 kv.2) base

/-- The flattened property map of a structured type. -/
def flatProps (ctx : Ctx) (t : TypeDecl) : List (String × Element) :=
  propsOfTypeFuel ctx (typeCount ctx + 1) (some t)

/-- Keep the first occurrence of every string (the `[...new Set(xs)]` and
JS-object-key deduplication idiom). -/
def dedupFirstAux (seen : List String) : List String → List String
  | [] => []
  | x :: rest =>
      if seen.contains x then dedupFirstAux seen rest
      else x :: dedupFirstAux (seen ++ [x]) rest

/-- Keep the first occurrence of every string. -/
def dedupFirst (l : List String) : List String := dedupFirstAux [] l

/-- Remove the first occurrence of a string, if present (the
`indexOf`/`splice` idiom of the source). -/
def removeFirst : List String → String → List String
  | [], _ => []
  | x :: rest, y => if x = y then rest else x :: removeFirst rest y

/-- `keyMap` of the source (`lib/compile/modules/builders/schemas.js`):
the `$Key` names of the type followed by every flattened property
individually annotated `Core.IsKey`, first occurrence kept. -/
def keyMap (ctx : Ctx) (t : TypeDecl) : List String :=
  dedupFirst (t.keyList ++ ((flatProps ctx t).filter (fun kv => kv.2.isKeyAnn)).map (·.1))

/-- `TITLE_SUFFIX[suffix]`, with the JS `undefined` string rendering for an
unknown suffix. -/
def titleSuffix : String → String
  | "" => ""
  | "-create" => " (for create)"
  | "-update" => " (for update)"
  | _ => "undefined"

/-- Truthiness of an optional annotation value. -/
def optTruthy (v? : Option SVal) : Bool :=
  match v? with
  | some v => svalTruthy v
  | none => false

/-- `odmExtensions` of the source: map `@ODM.entityName` / `@ODM.oid` to
their `x-sap-odm-*` keys when truthy. -/
def odmExtensions (t : TypeDecl) (s : SVal) : SVal :=
  let s :=
    match t.odmEntityName? with
    | some v => if svalTruthy v then s.setKey "x-sap-odm-entity-name" v else s
    | none => s
  match t.odmOid? with
  | some v => if svalTruthy v then s.setKey "x-sap-odm-oid" v else s
  | none => s

/-- One step of the `erExtensions` table loop. -/
def erExtStep (t : TypeDecl) (acc : SVal) (p : String × String) : SVal :=
  match alookup t.erAnns p.1 with
  | some v => if svalTruthy v then acc.setKey p.2 v else acc
  | none => acc

/-- `erExtensions` of the source: map the entity-relationship annotation
table to its `x-entity-relationship-*` keys when truthy. -/
def erExtensions (t : TypeDecl) (s : SVal) : SVal :=
  erTable.foldl (erExtStep t) s

/-- One iteration of the property loop of `schemasForStructuredType`,
over the accumulator (schemaProperties, required, state). -/
def stStep (ctx : Ctx) (suffix : String) (isCount : Bool) (isKey : List String)
    (acc : List (String × SVal) × List String × St) (kv : String × Element) :
    List (String × SVal) × List String × St :=
  let iName := kv.1
  let property := kv.2
  let props := acc.1
  let req := acc.2.1
  let st := acc.2.2
  let pr :=
    if suffix = "" then
      let r := getSchema ctx property "" false false st
      (setV props iName r.1, r.2)
    else (props, st)
  let props := pr.1
  let st := pr.2
  let req := if property.fieldControl? = some "Mandatory" then req ++ [iName] else req
  if property.kind? = some "NavigationProperty" then
    let props :=
      if property.coll = true ∧ suffix = "" ∧ isCount = true then
        setV props (iName ++ "@" ++ (if ctx.csdl.version = "4.0" then "odata." else "") ++ "count")
          (refFn ctx "count" "" st).1
      else props
    if property.permissions? ≠ some "Read" ∧ property.computed = false ∧
        (property.containsTarget = true ∨ property.onDelete? = some "Cascade") then
      if suffix = "-create" then
        let r := getSchema ctx property "-create" false false st
        (setV props iName r.1, req, r.2)
      else if suffix = "-update" then
        let r := getSchema ctx property "-create" false false st
        (setV props iName r.1, req, r.2)
      else (props, req, st)
    else (props, req, st)
  else
    let req :=
      if property.permissions? = some "Read" ∨ property.computed = true ∨
          property.computedDefault = true then
        removeFirst req iName
      else req
    if ¬ (property.permissions? = some "Read" ∨ property.computed = true) then
      if suffix = "-create" then
        let r := getSchema ctx property "-create" false false st
        (setV props iName r.1, req, r.2)
      else if suffix = "-update" ∧ isKey.contains iName = false ∧ property.immutable = false then
        let r := getSchema ctx property "-update" false false st
        (setV props iName r.1, req, r.2)
      else (props, req, st)
    else (props, req, st)

/-- The schema-object assembly of `schemasForStructuredType`: title and
type, then properties, root-entity/ODM/ER extensions, the `required` list
(create variant only), description, and the derived-type `anyOf`. -/
def stSchemaVal (t : TypeDecl) (suffix name : String) (props : List (String × SVal))
    (req : List String) (anyOf? : Option (List SVal)) : SVal :=
  let s : SVal := .objV [("title", .strV ((strT t.elem.descAnn?).getD name ++ titleSuffix suffix)),
                         ("type", .strV "object")]
  let s := if props.isEmpty = false then s.setKey "properties" (.objV props) else s
  let s :=
    if suffix = "" ∧ optTruthy t.odmRoot? = true then
      s.setKey "x-sap-root-entity" (t.odmRoot?.getD .nullV)
    else s
  let s := odmExtensions t s
  let s := erExtensions t s
  let s :=
    if suffix = "-create" ∧ req.isEmpty = false then
      s.setKey "required" (.arrV ((dedupFirst req).map .strV))
    else s
  let s :=
    match strT t.elem.longDesc? with
    | some d => s.setKey "description" (.strV d)
    | none => s
  match anyOf? with
  | some l => s.setKey "anyOf" (.arrV l)
  | none => s

/-- `schemasForStructuredType` of the source (live monolith version):
produce the schema entry for one read/create/update variant of a structured
type. Returns the emitted (name, schema) pair and the updated state. -/
def schemasForStructuredType (ctx : Ctx) (qualifier name : String) (t : TypeDecl)
    (suffix : String) (st : St) : (String × SVal) × St :=
  let schemaName := qualifier ++ "." ++ name ++ suffix
  let baseName := qualifier ++ "." ++ name
  let isKey := keyMap ctx t
  let isCount := !((alookup ctx.csdl.nonCountable qualifier).getD []).contains name
  let properties := flatProps ctx t
  let z := properties.foldl (stStep ctx suffix isCount isKey) ([], isKey, st)
  let props := z.1
  let req := z.2.1
  let st := z.2.2
  let z2 :=
    match alookup ctx.derived baseName with
    | some l =>
        let r := l.foldl
          (fun (acc : List SVal × St) dt =>
            let rr := refFn ctx dt suffix acc.2
            (acc.1 ++ [rr.1], rr.2)) ([], st)
        (some (if t.abstractFlag then r.1 else r.1 ++ [SVal.objV []]), r.2)
    | none => (none, st)
  ((schemaName, stSchemaVal t suffix name props req z2.1), z2.2)

/-- The `$ref` contribution of a single object field. -/
def refAt (k : String) (v : SVal) : List String :=
  if k = "$ref" then (match v with | .strV r => [r] | _ => []) else []

mutual
/-- All `$ref` string values occurring anywhere inside a value (the
"every `$ref` appearing anywhere" collection of the reachability claim). -/
def refsIn : SVal → List String
  | .objV fs => refsInFields fs
  | .arrV vs => refsInArr vs
  | _ => []
/-- All `$ref` string values occurring in an object field list. -/
def refsInFields : List (String × SVal) → List String
  | [] => []
  | (k, v) :: rest => refAt k v ++ refsIn v ++ refsInFields rest
/-- All `$ref` string values occurring in a value list. -/
def refsInArr : List SVal → List String
  | [] => []
  | v :: rest => refsIn v ++ refsInArr rest
end

/-- `isIdentifier` of the source: no leading `$`, no `@`. -/
def isIdent (s : String) : Bool :=
  !strStartsWith s "$" && !(s.toList.contains (Char.ofNat 64))

/-- No `$ref` occurs inside an optional annotation payload. -/
def noRefsO : Option SVal → Bool
  | some v => (refsIn v).isEmpty
  | none => true

/-- An element's annotation payloads carry no `$ref` keys anywhere. -/
def cleanElem (e : Element) : Bool :=
  noRefsO e.defaultV? && noRefsO e.exampleV? &&
  (match e.allowedVals? with | some vs => (refsInArr vs).isEmpty | none => true) &&
  noRefsO e.jsonSchemaAnn? && (refsInFields e.erAnns).isEmpty

/-- A type name is either primitive (`Edm.`-prefixed) or qualified. -/
def dotOrEdm : Option String → Bool
  | some t => strStartsWith t "Edm." || hasDot t
  | none => true

/-- Well-formedness of an element: clean annotation payloads and a
primitive or qualified type name. -/
def wfElem (e : Element) : Bool := cleanElem e && dotOrEdm e.type?

/-- Well-formedness of a type declaration: identifier-named properties with
well-formed elements, clean type-level annotation payloads, `x-`-prefixed
extension keys, a well-formed element facet, and a primitive or qualified
underlying type. -/
def wfType (t : TypeDecl) : Bool :=
  t.props.all (fun kv => isIdent kv.1 && wfElem kv.2) &&
  noRefsO t.odmRoot? && noRefsO t.odmEntityName? && noRefsO t.odmOid? &&
  (refsInFields t.erAnns).isEmpty &&
  (refsInFields t.openapiExt).isEmpty &&
  t.openapiExt.all (fun kv => strStartsWith kv.1 "x-") &&
  wfElem t.elem && dotOrEdm t.underlyingType?

/-- Well-formedness of the conversion context: all declared types well
formed, derived-type names qualified, and no external namespace URLs. -/
def wfCtx (ctx : Ctx) : Bool :=
  ctx.csdl.schemaList.all (fun ns => ns.2.all (fun td => wfType td.2)) &&
  ctx.derived.all (fun p => p.2.all (fun d => hasDot d)) &&
  ctx.nsUrl.isEmpty

/-- The `requiredSchemas.used` key of a work-list entry. -/
def keyOfRS (r : RS) : String := r.ns ++ "." ++ r.name ++ r.suffix

/-- `requiredSchemas.used` mirrors the keys of `requiredSchemas.list`. -/
def usedInv (st : St) : Prop := st.used = st.list.map keyOfRS

/-- State extension along the pipeline: the work-list and its `used` mirror
grow together by matching entries, and the `geoPoint` flag is monotone. -/
def stExt (st st2 : St) : Prop :=
  (∃ l, st2.list = st.list ++ l ∧ st2.used = st.used ++ l.map keyOfRS) ∧
  (st.geoPoint = true → st2.geoPoint = true)

/-- A reference string is accounted for: the static `count` reference, a
geo reference with the inline flag raised, or a reference to a registered
`used` key. -/
def refOk (used : List String) (geo : Bool) (r : String) : Prop :=
  r = "#/components/schemas/count" ∨
  ((r = "#/components/schemas/geoPoint" ∨ r = "#/components/schemas/geoPosition") ∧
    geo = true) ∨
  ∃ k ∈ used, r = "#/components/schemas/" ++ k

/-- `schemaForEnumerationType` of the source: a string schema whose `enum`
lists the type's identifier members, with an optional description. -/
def schemaForEnumerationType (qualifier name : String) (t : TypeDecl) : String × SVal :=
  let s : SVal := .objV [("type", .strV "string"), ("title", .strV name),
                         ("enum", .arrV (t.props.map (fun kv => .strV kv.1)))]
  let s :=
    match strT t.elem.longDesc? with
    | some d => s.setKey "description" (.strV d)
    | none => s
  (qualifier ++ "." ++ name, s)

/-- `schemaForTypeDefinition` of the source: `getSchema` of the type's
element facet with `$Type` defaulted to `$UnderlyingType` (the
`Object.assign` idiom), plus title and optional description. -/
def schemaForTypeDefinition (ctx : Ctx) (qualifier name : String) (t : TypeDecl) (st : St) :
    (String × SVal) × St :=
  let e := { t.elem with type? := match t.elem.type? with
                                  | some x => some x
                                  | none => t.underlyingType? }
  let r := getSchema ctx e "" false false st
  let s := r.1.setKey "title" (.strV name)
  let s :=
    match strT t.elem.longDesc? with
    | some d => s.setKey "description" (.strV d)
    | none => s
  ((qualifier ++ "." ++ name, s), r.2)

/-- One work-list entry of the `getSchemas` drain: dispatch on the kind of
the resolved type; an unresolved name is skipped (`if (!type) continue`). -/
def drainStep (ctx : Ctx) (acc : List (String × SVal) × St) (r : RS) :
    List (String × SVal) × St :=
  match modelElement ctx (r.ns ++ "." ++ r.name) with
  | none => acc
  | some ty =>
      match ty.kind? with
      | some "ComplexType" =>
          let z := schemasForStructuredType ctx r.ns r.name ty r.suffix acc.2
          (setV acc.1 z.1.1 z.1.2, z.2)
      | some "EntityType" =>
          let z := schemasForStructuredType ctx r.ns r.name ty r.suffix acc.2
          (setV acc.1 z.1.1 z.1.2, z.2)
      | some "EnumType" =>
          let z := schemaForEnumerationType r.ns r.name ty
          (setV acc.1 z.1 z.2, acc.2)
      | some "TypeDefinition" =>
          let z := schemaForTypeDefinition ctx r.ns r.name ty acc.2
          (setV acc.1 z.1.1 z.1.2, z.2)
      | _ => acc

/-- The live `for (const r of requiredSchemas.list)` drain of `getSchemas`:
the work-list grows while it is iterated; `fuel` bounds the number of
iterations, `none` reports exhaustion before the work-list was drained. -/
def drainLoop (ctx : Ctx) : Nat → Nat → List (String × SVal) × St →
    Option (List (String × SVal) × St)
  | 0, i, acc => if i < acc.2.list.length then none else some acc
  | fuel + 1, i, acc =>
      if h : i < acc.2.list.length then
        drainLoop ctx fuel (i + 1) (drainStep ctx acc (acc.2.list.get ⟨i, h⟩))
      else some acc

/-- Merge extension keys onto a schema object (the `Object.assign` of the
extension pass). -/
def mergeExt (s : SVal) (ext : List (String × SVal)) : SVal :=
  ext.foldl (fun s kv => s.setKey kv.1 kv.2) s

/-- The entity-level `@OpenAPI.Extensions` pass of `getSchemas`. The
`getExtensions` helper is not part of the visible source; its result is
modelled abstractly as the declaration's `openapiExt` field. -/
def extPass (ctx : Ctx) (m : List (String × SVal)) : List (String × SVal) :=
  ctx.csdl.schemaList.foldl
    (fun m ns =>
      if isIdent ns.1 then
        ns.2.foldl
          (fun m td =>
            if isIdent td.1 &&
                (td.2.kind? == some "EntityType" || td.2.kind? == some "ComplexType") &&
                !td.2.openapiExt.isEmpty then
              setV m (ns.1 ++ "." ++ td.1)
                (mergeExt ((alookup m (ns.1 ++ "." ++ td.1)).getD (.objV []))
                  td.2.openapiExt)
            else m) m
      else m) m

/-- Structural code-point comparison of character lists (the JS default
string comparison). -/
def ltCh : List Char → List Char → Bool
  | [], [] => false
  | [], _ :: _ => true
  | _ :: _, [] => false
  | a :: as, b :: bs =>
      if a.toNat < b.toNat then true
      else if b.toNat < a.toNat then false
      else ltCh as bs

/-- Structural string comparison (`<`). -/
def strLt (a b : String) : Bool := ltCh a.toList b.toList

/-- Structural string comparison (`≤`). -/
def strLe (a b : String) : Bool := !(strLt b a)

/-- Insert into a sorted list of strings. -/
def insertSorted (x : String) : List String → List String
  | [] => [x]
  | y :: ys => if strLe x y then x :: y :: ys else y :: insertSorted x ys

/-- Sort strings (the `Object.keys(unordered).sort()` step; object keys are
distinct, so any comparison sort computes the JS result). -/
def sortStrings : List String → List String
  | [] => []
  | x :: xs => insertSorted x (sortStrings xs)

/-- The inlined `geoPosition` schema of `inlineTypes`. -/
def geoPositionVal : SVal :=
  .objV [("type", .strV "array"), ("minItems", .numV 2),
         ("items", .objV [("type", .strV "number")])]

/-- The inlined `geoPoint` schema of `inlineTypes` (its `coordinates`
member references `geoPosition`). -/
def geoPointVal : SVal :=
  .objV [("type", .strV "object"),
         ("properties", .objV
            [("coordinates", .objV [("$ref", .strV "#/components/schemas/geoPosition")]),
             ("type", .objV [("type", .strV "string"), ("enum", .arrV [.strV "Point"]),
                             ("default", .strV "Point")])]),
         ("required", .arrV [.strV "type", .strV "coordinates"])]

/-- The static `count` response schema (`count()` of the source). -/
def countVal : SVal :=
  .objV [("anyOf", .arrV [.objV [("type", .strV "number")],
                          .objV [("type", .strV "string")]]),
         ("description", .strV "The number of entities in the collection. Available when using the [$count](http://docs.oasis-open.org/odata/odata/v4.01/odata-v4.01-part1-protocol.html#sec_SystemQueryOptioncount) query option.")]

/-- The `error.properties` member map for OData 4.0 and later. -/
def errorPropsV4 : List (String × SVal) :=
  [("code", .objV [("type", .strV "string")]),
   ("message", .objV [("type", .strV "string")]),
   ("target", .objV [("type", .strV "string")]),
   ("details", .objV [("type", .strV "array"),
      ("items", .objV [("type", .strV "object"),
         ("required", .arrV [.strV "code", .strV "message"]),
         ("properties", .objV [("code", .objV [("type", .strV "string")]),
                               ("message", .objV [("type", .strV "string")]),
                               ("target", .objV [("type", .strV "string")])])])]),
   ("innererror", .objV [("type", .strV "object"),
      ("description", .strV "The structure of this object is service-specific")])]

/-- The `error.properties` member map for OData before 4.0 (`message`
replaced by a `lang`/`value` record, `target` and `details` deleted). -/
def errorPropsOld : List (String × SVal) :=
  [("code", .objV [("type", .strV "string")]),
   ("message", .objV [("type", .strV "object"),
      ("properties", .objV [("lang", .objV [("type", .strV "string")]),
                            ("value", .objV [("type", .strV "string")])]),
      ("required", .arrV [.strV "lang", .strV "value"])]),
   ("innererror", .objV [("type", .strV "object"),
      ("description", .strV "The structure of this object is service-specific")])]

/-- The static `error` schema (`error()` of the source). -/
def errorVal (version : String) : SVal :=
  .objV [("type", .strV "object"), ("required", .arrV [.strV "error"]),
         ("properties", .objV
            [("error", .objV [("type", .strV "object"),
                ("required", .arrV [.strV "code", .strV "message"]),
                ("properties", .objV
                  (if strLt version "4.0" then errorPropsOld else errorPropsV4))])])]

/-- JS truthiness of `csdl.$EntityContainer`. -/
def containerPresent (ctx : Ctx) : Bool :=
  match ctx.csdl.entityContainer? with
  | some s => s != ""
  | none => false

/-- `getSchemas` of the source: drain the live work-list (with `fuel`
bounding the iteration count), apply the entity-level extension pass, sort
the keys, inline the geo schemas when flagged, and append `count`/`error`
when an entity container is present. -/
def getSchemas (ctx : Ctx) (fuel : Nat) (st : St) : Option (List (String × SVal) × St) :=
  match drainLoop ctx fuel 0 ([], st) with
  | none => none
  | some z =>
      let unordered := extPass ctx z.1
      let ordered := (sortStrings (unordered.map (·.1))).map
        (fun k => (k, (alookup unordered k).getD .nullV))
      let ordered :=
        if z.2.geoPoint then
          setV (setV ordered "geoPoint" geoPointVal) "geoPosition" geoPositionVal
        else ordered
      let ordered :=
        if containerPresent ctx then
          setV (setV ordered "count" countVal) "error" (errorVal ctx.csdl.version)
        else ordered
      some (ordered, z.2)

/-- The key list of a `getSchemas` result. -/
def schemasKeys (o : Option (List (String × SVal) × St)) : List String :=
  match o with
  | some z => z.1.map (·.1)
  | none => []

/-- All `$ref` strings occurring in the values of a `getSchemas` result. -/
def schemasRefs (o : Option (List (String × SVal) × St)) : List String :=
  match o with
  | some z => refsInFields z.1
  | none => []

/-- The final state of a `getSchemas` result. -/
def stOf (o : Option (List (String × SVal) × St)) : St :=
  match o with
  | some z => z.2
  | none => {}

/-- A work-list entry resolves: its qualified name names a declaration of a
kind the drain emits, with an empty suffix for the suffix-less kinds. -/
def rsResolves (ctx : Ctx) (r : RS) : Bool :=
  match (modelElement ctx (r.ns ++ "." ++ r.name)).map TypeDecl.kind? with
  | some (some "ComplexType") => true
  | some (some "EntityType") => true
  | some (some "EnumType") => r.suffix == ""
  | some (some "TypeDefinition") => r.suffix == ""
  | _ => false

/-- The C6 counterexample model: entity `S.E` has a property typed by the
undeclared `S.Unknown`. -/
def c6ctx : Ctx :=
  { csdl := { version := "4.0", entityContainer? := some "S.Container", schemaList := [("S", [("E", { kind? := some "EntityType", keyList := ["ID"], props := [("ID", { type? := some "Edm.String" }), ("bad", { type? := some "S.Unknown" })] })])] },
    nsMap := [("S", "S")] }

/-- The initial work-list for the C6 counterexample run: the root entity
was registered by the paths phase. -/
def c6st : St := { used := ["S.E"], list := [⟨"S", "E", ""⟩] }

/-- The C6 witness model: entity `S.E` references the declared complex type
`S.F`, so every work-list entry resolves. -/
def c6wctx : Ctx :=
  { csdl := { version := "4.0", entityContainer? := some "S.Container", schemaList := [("S", [("E", { kind? := some "EntityType", keyList := ["ID"], props := [("ID", { type? := some "Edm.String" }), ("f", { type? := some "S.F" })] }), ("F", { kind? := some "ComplexType", props := [("x", { type? := some "Edm.Boolean" })] })])] },
    nsMap := [("S", "S")] }

/-! ## Basic lemmas about the object model -/

theorem alookup_setV {α : Type} (fs : List (String × α)) (k k2 : String) (v : α) :
    alookup (setV fs k v) k2 = if k2 = k then some v else alookup fs k2 := by
  induction fs with
  | nil =>
      by_cases h : k2 = k
      · subst h; simp [setV, alookup]
      · simp [setV, alookup, h, Ne.symm h]
  | cons hd tl ih =>
      obtain ⟨a, b⟩ := hd
      by_cases hk : a = k
      · subst hk
        by_cases h : k2 = a
        · subst h; simp [setV, alookup]
        · simp [setV, alookup, h, Ne.symm h]
      · by_cases h2 : a = k2
        · subst h2
          simp [setV, alookup, hk, Ne.symm hk]
        · simp [setV, alookup, hk, h2, ih]

theorem getKey_setKey_ne (s : SVal) (k : String) (v : SVal) (k2 : String) (h : k2 ≠ k) :
    (s.setKey k v).getKey k2 = s.getKey k2 := by
  cases s <;> simp [SVal.setKey, SVal.getKey]
  rw [alookup_setV]
  simp [h]

theorem getKey_setKey_self (fs : List (String × SVal)) (k : String) (v : SVal) :
    ((SVal.objV fs).setKey k v).getKey k = some v := by
  simp [SVal.setKey, SVal.getKey, alookup_setV]

theorem wrapIfRef_of_no_ref (s : SVal) (h : s.getKey "$ref" = none) : wrapIfRef s = s := by
  simp [wrapIfRef, h]

theorem mem_map_snd_of_alookup {α : Type} (l : List (String × α)) (k : String) (v : α)
    (h : alookup l k = some v) : v ∈ l.map (·.2) := by
  induction l with
  | nil => simp [alookup] at h
  | cons hd tl ih =>
      by_cases hk : hd.1 = k
      · simp [alookup, hk] at h
        simp [← h]
      · simp [alookup, hk] at h
        simp [ih h]

theorem getKey_erStep (s : SVal) (kv : String × SVal) (k : String)
    (hk : ∀ ext ∈ erTable.map (·.2), k ≠ ext) :
    (erStep s kv).getKey k = s.getKey k := by
  unfold erStep
  by_cases hs : strStartsWith kv.1 "@EntityRelationship"
  · cases hfind : alookup erTable kv.1 with
    | none => simp [hs, hfind]
    | some ext =>
        simp [hs, hfind]
        exact getKey_setKey_ne _ _ _ _ (hk ext (mem_map_snd_of_alookup _ _ _ hfind))
  · simp [hs]

theorem getKey_erPassthrough (anns : List (String × SVal)) (s : SVal) (k : String)
    (hk : ∀ ext ∈ erTable.map (·.2), k ≠ ext) :
    (erPassthrough anns s).getKey k = s.getKey k := by
  induction anns generalizing s with
  | nil => simp [erPassthrough]
  | cons hd tl ih =>
      have step : erPassthrough (hd :: tl) s = erPassthrough tl (erStep s hd) := by
        simp [erPassthrough]
      rw [step, ih (erStep s hd), getKey_erStep s hd k hk]

theorem getKey_applyAllowedVals (e : Element) (s : SVal) (k : String) (h : k ≠ "enum") :
    (applyAllowedVals e s).getKey k = s.getKey k := by
  unfold applyAllowedVals
  cases e.allowedVals? <;> simp [getKey_setKey_ne _ _ _ _ h]

theorem getKey_applyNullable (e : Element) (s : SVal) (k : String)
    (href : s.getKey "$ref" = none) (h : k ≠ "nullable") :
    (applyNullable e s).getKey k = s.getKey k := by
  unfold applyNullable
  by_cases hn : e.nullable <;>
    simp [hn, wrapIfRef_of_no_ref s href, getKey_setKey_ne _ _ _ _ h]

theorem getKey_applyDefault (e : Element) (s : SVal) (k : String)
    (href : s.getKey "$ref" = none) (h : k ≠ "default") :
    (applyDefault e s).getKey k = s.getKey k := by
  unfold applyDefault
  cases e.defaultV? <;>
    simp [wrapIfRef_of_no_ref s href, getKey_setKey_ne _ _ _ _ h]

theorem getKey_applyExample (e : Element) (s : SVal) (k : String)
    (href : s.getKey "$ref" = none) (h : k ≠ "example") :
    (applyExample e s).getKey k = s.getKey k := by
  unfold applyExample
  cases e.exampleV? <;>
    simp [wrapIfRef_of_no_ref s href, getKey_setKey_ne _ _ _ _ h]

theorem applyFuncLiteral_false (e : Element) (s : SVal) : applyFuncLiteral e false s = s := by
  simp [applyFuncLiteral]

theorem applyVMax_none (e : Element) (s : SVal) (h : e.vMax? = none) : applyVMax e s = s := by
  simp [applyVMax, h]

theorem applyVMin_none (e : Element) (s : SVal) (h : e.vMin? = none) : applyVMin e s = s := by
  simp [applyVMin, h]

theorem applyCollection_false (e : Element) (s : SVal) (h : e.coll = false) :
    applyCollection e s = s := by
  simp [applyCollection, h]

theorem getKey_applyDescription (e : Element) (fp : Bool) (s : SVal) (k : String)
    (href : s.getKey "$ref" = none) (h : k ≠ "description") :
    (applyDescription e fp s).getKey k = s.getKey k := by
  unfold applyDescription
  cases fp <;> cases strT e.longDesc? <;>
    simp [wrapIfRef_of_no_ref s href, getKey_setKey_ne _ _ _ _ h]

theorem getKey_applyOdmOidRef (e : Element) (s : SVal) (k : String)
    (h : k ≠ "x-sap-odm-oid-reference-entity-name") :
    (applyOdmOidRef e s).getKey k = s.getKey k := by
  unfold applyOdmOidRef
  cases strT e.odmOidRef? <;> simp [getKey_setKey_ne _ _ _ _ h]

theorem getSchema_eq (ctx : Ctx) (e : Element) (sfx : String) (fp ff : Bool) (st : St) :
    getSchema ctx e sfx fp ff st =
      (erPassthrough e.erAnns (applyOdmOidRef e (applyDescription e fp (applyCollection e
        (applyVMin e (applyVMax e (applyFuncLiteral e ff (applyExample e (applyDefault e
        (applyNullable e (applyAllowedVals e (baseSchema ctx e sfx st).1)))))))))),
       (baseSchema ctx e sfx st).2) := by
  simp [getSchema]

/-- The whole post-switch chain of `getSchema` (in non-function context, for
a non-collection element without validation bounds) only writes keys of its
own fixed vocabulary, so any other key reads through to the type-dispatch
result. -/
theorem getKey_getSchema_plain (ctx : Ctx) (e : Element) (sfx : String) (fp : Bool) (st : St)
    (k : String)
    (href : ((baseSchema ctx e sfx st).1).getKey "$ref" = none)
    (hVMax : e.vMax? = none) (hVMin : e.vMin? = none) (hColl : e.coll = false)
    (hk : k ≠ "enum" ∧ k ≠ "nullable" ∧ k ≠ "default" ∧ k ≠ "example" ∧ k ≠ "description" ∧
          k ≠ "x-sap-odm-oid-reference-entity-name" ∧ ∀ ext ∈ erTable.map (·.2), k ≠ ext) :
    ((getSchema ctx e sfx fp false st).1).getKey k = ((baseSchema ctx e sfx st).1).getKey k := by
  obtain ⟨h1, h2, h3, h4, h5, h6, h7⟩ := hk
  rw [getSchema_eq]
  rw [applyFuncLiteral_false, applyVMax_none e _ hVMax, applyVMin_none e _ hVMin,
      applyCollection_false e _ hColl]
  have n1 : (applyAllowedVals e (baseSchema ctx e sfx st).1).getKey "$ref" = none := by
    rw [getKey_applyAllowedVals e _ "$ref" (by decide)]; exact href
  have n2 : (applyNullable e (applyAllowedVals e (baseSchema ctx e sfx st).1)).getKey "$ref"
      = none := by
    rw [getKey_applyNullable e _ "$ref" n1 (by decide)]; exact n1
  have n3 : (applyDefault e (applyNullable e (applyAllowedVals e
      (baseSchema ctx e sfx st).1))).getKey "$ref" = none := by
    rw [getKey_applyDefault e _ "$ref" n2 (by decide)]; exact n2
  have n4 : (applyExample e (applyDefault e (applyNullable e (applyAllowedVals e
      (baseSchema ctx e sfx st).1)))).getKey "$ref" = none := by
    rw [getKey_applyExample e _ "$ref" n3 (by decide)]; exact n3
  rw [Prod.fst]
  rw [getKey_erPassthrough _ _ _ h7, getKey_applyOdmOidRef e _ _ h6,
      getKey_applyDescription e fp _ _ n4 h5, getKey_applyExample e _ _ n3 h4,
      getKey_applyDefault e _ _ n2 h3, getKey_applyNullable e _ _ n1 h2,
      getKey_applyAllowedVals e _ _ h1]

/-- C1: for every model element of type `Edm.Decimal` with numeric facets
`$Precision p` and `$Scale s`, `getSchema` returns a number-or-string
`anyOf` union whose numeric member has `multipleOf = 10^-s` when `s ≤ 0` and
`1/10^s` when `s > 0`, and, whenever `p < 16`,
`maximum = 10^(p-s) - 10^-s` and `minimum = -(10^(p-s) - 10^-s)`. -/
theorem claim_C1 (ctx : Ctx) (e : Element) (st : St) (p s : Int)
    (hT : e.type? = some "Edm.Decimal") (hP : e.precision? = some p)
    (hS : e.scale? = some s) (hColl : e.coll = false)
    (hVMax : e.vMax? = none) (hVMin : e.vMin? = none) :
    getStr (anyOfHead ((getSchema ctx e "" false false st).1)) "type" = some "number" ∧
    getStr (anyOfIdx ((getSchema ctx e "" false false st).1) 1) "type" = some "string" ∧
    getNum (anyOfHead ((getSchema ctx e "" false false st).1)) "multipleOf" =
      some (if s ≤ 0 then pow10 (-s) else 1 / pow10 s) ∧
    (p < 16 →
      getNum (anyOfHead ((getSchema ctx e "" false false st).1)) "maximum" =
        some (pow10 (p - s) - pow10 (-s)) ∧
      getNum (anyOfHead ((getSchema ctx e "" false false st).1)) "minimum" =
        some (-(pow10 (p - s) - pow10 (-s)))) := by
  have href : ((baseSchema ctx e "" st).1).getKey "$ref" = none := by
    by_cases hp : p < 16 <;>
      simp [baseSchema, hT, hP, hS, hp, SVal.getKey, alookup]
  have hAny : ((getSchema ctx e "" false false st).1).getKey "anyOf"
      = ((baseSchema ctx e "" st).1).getKey "anyOf" :=
    getKey_getSchema_plain ctx e "" false st "anyOf" href hVMax hVMin hColl
      (by refine ⟨?_, ?_, ?_, ?_, ?_, ?_, ?_⟩ <;> decide)
  simp only [anyOfHead, anyOfIdx, getStr, getNum, hAny]
  by_cases hp : p < 16 <;> by_cases hs0 : s ≤ 0 <;>
    simp [baseSchema, hT, hP, hS, hp, hs0, SVal.getKey, alookup]

/-- C1 witness: at precision 5 and scale 2 the numeric member has
`maximum = 999.99`, `minimum = -999.99` and `multipleOf = 0.01`. -/
theorem claim_C1_witness :
    getNum (anyOfHead ((getSchema {} { type? := some "Edm.Decimal", precision? := some 5, scale? := some 2 } "" false false {}).1)) "maximum" = some (999.99 : ℚ) ∧
    getNum (anyOfHead ((getSchema {} { type? := some "Edm.Decimal", precision? := some 5, scale? := some 2 } "" false false {}).1)) "minimum" = some (-999.99 : ℚ) ∧
    getNum (anyOfHead ((getSchema {} { type? := some "Edm.Decimal", precision? := some 5, scale? := some 2 } "" false false {}).1)) "multipleOf" = some (0.01 : ℚ) := by
  have h := claim_C1 {} { type? := some "Edm.Decimal", precision? := some 5, scale? := some 2 }
    {} 5 2 rfl rfl rfl rfl rfl rfl
  obtain ⟨-, -, hm, hbounds⟩ := h
  have hb := hbounds (by norm_num)
  have t3 : Int.toNat 3 = 3 := rfl
  have t2 : Int.toNat 2 = 2 := rfl
  refine ⟨?_, ?_, ?_⟩
  · rw [hb.1]; norm_num [pow10, t3, t2]
  · rw [hb.2]; norm_num [pow10, t3, t2]
  · rw [hm]; norm_num [pow10, t2]

theorem getKey_odmExtensions (t : TypeDecl) (s : SVal) (k : String)
    (h1 : k ≠ "x-sap-odm-entity-name") (h2 : k ≠ "x-sap-odm-oid") :
    (odmExtensions t s).getKey k = s.getKey k := by
  cases hA : t.odmEntityName? <;> cases hB : t.odmOid? <;>
    simp only [odmExtensions, hA, hB] <;> split_ifs <;>
    simp [getKey_setKey_ne _ _ _ _ h1, getKey_setKey_ne _ _ _ _ h2]

theorem getKey_erExtFold (t : TypeDecl) (tbl : List (String × String)) (s : SVal) (k : String)
    (hk : ∀ ext ∈ tbl.map (·.2), k ≠ ext) :
    (tbl.foldl (erExtStep t) s).getKey k = s.getKey k := by
  induction tbl generalizing s with
  | nil => simp
  | cons hd tl ih =>
      have step : (hd :: tl).foldl (erExtStep t) s = tl.foldl (erExtStep t) (erExtStep t s hd) := by
        simp
      rw [step, ih _ (fun ext hm => hk ext (by simp [hm]))]
      unfold erExtStep
      cases alookup t.erAnns hd.1 with
      | none => rfl
      | some v =>
          by_cases hv : svalTruthy v <;>
            simp [hv, getKey_setKey_ne _ _ _ _ (hk hd.2 (by simp))]

theorem getKey_erExtensions (t : TypeDecl) (s : SVal) (k : String)
    (hk : ∀ ext ∈ erTable.map (·.2), k ≠ ext) :
    (erExtensions t s).getKey k = s.getKey k :=
  getKey_erExtFold t erTable s k hk

theorem getKey_stSchemaVal_required (t : TypeDecl) (suffix name : String)
    (props : List (String × SVal)) (req : List String) (anyOf? : Option (List SVal))
    (h : ¬ suffix = "-create") :
    (stSchemaVal t suffix name props req anyOf?).getKey "required" = none := by
  simp only [stSchemaVal]
  have e1 : ∀ s : SVal,
      (match anyOf? with
       | some l => s.setKey "anyOf" (.arrV l)
       | none => s).getKey "required" = s.getKey "required" := by
    intro s; cases anyOf? <;> simp [getKey_setKey_ne _ _ _ _ (by decide : ("required" : String) ≠ "anyOf")]
  rw [e1]
  have e2 : ∀ s : SVal,
      (match strT t.elem.longDesc? with
       | some d => s.setKey "description" (.strV d)
       | none => s).getKey "required" = s.getKey "required" := by
    intro s; cases strT t.elem.longDesc? <;>
      simp [getKey_setKey_ne _ _ _ _ (by decide : ("required" : String) ≠ "description")]
  rw [e2]
  have e3 : ∀ s : SVal,
      (if suffix = "-create" ∧ req.isEmpty = false then
        s.setKey "required" (.arrV ((dedupFirst req).map .strV))
       else s) = s := by
    intro s; exact if_neg (by simp [h])
  rw [e3]
  rw [getKey_erExtensions t _ _ (by decide), getKey_odmExtensions t _ _ (by decide) (by decide)]
  have e4 : ∀ s : SVal,
      (if suffix = "" ∧ optTruthy t.odmRoot? = true then
        s.setKey "x-sap-root-entity" (t.odmRoot?.getD .nullV)
       else s).getKey "required" = s.getKey "required" := by
    intro s; split_ifs with hc
    · exact getKey_setKey_ne _ _ _ _ (by decide)
    · rfl
  rw [e4]
  have e5 : ∀ s : SVal,
      (if props.isEmpty = false then s.setKey "properties" (.objV props) else s).getKey "required"
        = s.getKey "required" := by
    intro s; split_ifs with hc
    · exact getKey_setKey_ne _ _ _ _ (by decide)
    · rfl
  rw [e5]
  simp [SVal.getKey, alookup]

/-- C3: a `required` list appears only on the `-create` schema variant: the
schema object `schemasForStructuredType` emits for the read (empty-suffix)
and `-update` variants never carries a `required` key (the live converter
emits no auxiliary `-base` schema at all). -/
theorem claim_C3 (ctx : Ctx) (qualifier name : String) (t : TypeDecl) (suffix : String)
    (st : St) (h : suffix = "" ∨ suffix = "-update") :
    ((schemasForStructuredType ctx qualifier name t suffix st).1.2).getKey "required" = none := by
  have hne : ¬ suffix = "-create" := by
    rcases h with h | h <;> subst h <;> decide
  simp only [schemasForStructuredType]
  exact getKey_stSchemaVal_required _ _ _ _ _ _ hne

theorem mem_keys_setV_iff {α : Type} (fs : List (String × α)) (k k2 : String) (v : α) :
    k ∈ (setV fs k2 v).map (·.1) ↔ k = k2 ∨ k ∈ fs.map (·.1) := by
  induction fs with
  | nil => simp [setV]
  | cons hd tl ih =>
      by_cases hk : hd.1 = k2
      · subst hk
        simp [setV]
      · simp only [setV, hk, if_false, List.map_cons, List.mem_cons, ih]
        tauto

theorem setV_keys_nodup {α : Type} (fs : List (String × α)) (k : String) (v : α)
    (h : (fs.map (·.1)).Nodup) : ((setV fs k v).map (·.1)).Nodup := by
  induction fs with
  | nil => simp [setV]
  | cons hd tl ih =>
      rw [List.map_cons, List.nodup_cons] at h
      by_cases hk : hd.1 = k
      · subst hk
        have hs : setV (hd :: tl) hd.1 v = (hd.1, v) :: tl := by simp [setV]
        rw [hs, List.map_cons, List.nodup_cons]
        exact ⟨h.1, h.2⟩
      · simp only [setV, hk, if_false, List.map_cons, List.nodup_cons]
        refine ⟨?_, ih h.2⟩
        rw [mem_keys_setV_iff]
        push_neg
        exact ⟨hk, h.1⟩

theorem alookup_of_mem_nodup {α : Type} (l : List (String × α)) (k : String) (v : α)
    (hnd : (l.map (·.1)).Nodup) (hmem : (k, v) ∈ l) : alookup l k = some v := by
  induction l with
  | nil => simp at hmem
  | cons hd tl ih =>
      rw [List.map_cons, List.nodup_cons] at hnd
      rcases List.mem_cons.1 hmem with heq | hmem2
      · rw [← heq]
        simp [alookup]
      · have hk : hd.1 ≠ k := by
          intro h
          apply hnd.1
          rw [h]
          exact List.mem_map_of_mem (·.1) hmem2
        simp only [alookup, hk, if_false]
        exact ih hnd.2 hmem2

theorem notMem_removeFirst (l : List String) (x y : String) (h : x ∉ l) :
    x ∉ removeFirst l y := by
  induction l with
  | nil => simp [removeFirst]
  | cons hd tl ih =>
      rw [List.mem_cons] at h
      push_neg at h
      by_cases hy : hd = y
      · have hr : removeFirst (hd :: tl) y = tl := by simp [removeFirst, hy]
        rw [hr]
        exact h.2
      · have hr : removeFirst (hd :: tl) y = hd :: removeFirst tl y := by
          simp [removeFirst, hy]
        rw [hr, List.mem_cons]
        push_neg
        exact ⟨h.1, ih h.2⟩

theorem notMem_removeFirst_self (l : List String) (x : String) (h : l.count x ≤ 1) :
    x ∉ removeFirst l x := by
  induction l with
  | nil => simp [removeFirst]
  | cons hd tl ih =>
      by_cases hy : hd = x
      · have hr : removeFirst (hd :: tl) x = tl := by simp [removeFirst, hy]
        rw [hr]
        have hz : tl.count x = 0 := by
          simp [List.count_cons, hy] at h
          omega
        exact List.count_eq_zero.1 hz
      · have hr : removeFirst (hd :: tl) x = hd :: removeFirst tl x := by
          simp [removeFirst, hy]
        rw [hr, List.mem_cons]
        push_neg
        refine ⟨fun hx => hy hx.symm, ih ?_⟩
        simp [List.count_cons, hy] at h
        exact h

theorem count_removeFirst_le (l : List String) (x y : String) :
    (removeFirst l y).count x ≤ l.count x := by
  induction l with
  | nil => simp [removeFirst]
  | cons hd tl ih =>
      by_cases hy : hd = y
      · have hr : removeFirst (hd :: tl) y = tl := by simp [removeFirst, hy]
        rw [hr, List.count_cons]
        omega
      · have hr : removeFirst (hd :: tl) y = hd :: removeFirst tl y := by
          simp [removeFirst, hy]
        rw [hr, List.count_cons, List.count_cons]
        omega

theorem mem_of_mem_dedupFirstAux (seen l : List String) (x : String)
    (h : x ∈ dedupFirstAux seen l) : x ∈ l := by
  induction l generalizing seen with
  | nil => simp [dedupFirstAux] at h
  | cons hd tl ih =>
      by_cases hs : seen.contains hd
      · simp only [dedupFirstAux, hs, if_pos] at h
        exact List.mem_cons_of_mem _ (ih _ h)
      · simp only [dedupFirstAux, hs, if_false] at h
        rcases List.mem_cons.1 h with h | h
        · exact h ▸ List.mem_cons_self _ _
        · exact List.mem_cons_of_mem _ (ih _ h)

theorem mem_of_mem_dedupFirst (l : List String) (x : String) (h : x ∈ dedupFirst l) : x ∈ l :=
  mem_of_mem_dedupFirstAux [] l x h

theorem alookup_mem {α : Type} (l : List (String × α)) (k : String) (v : α)
    (h : alookup l k = some v) : (k, v) ∈ l := by
  induction l with
  | nil => simp [alookup] at h
  | cons hd tl ih =>
      by_cases hk : hd.1 = k
      · simp only [alookup, hk, if_pos] at h
        have hv : hd.2 = v := by injection h
        rw [← hk, ← hv]
        exact List.mem_cons_self _ _
      · simp only [alookup, hk, if_false] at h
        exact List.mem_cons_of_mem _ (ih h)

theorem foldl_setV_keys_nodup (l : List (String × Element)) (init : List (String × Element))
    (h : (init.map (·.1)).Nodup) :
    ((l.foldl (fun acc kv => setV acc kv.1 kv.2) init).map (·.1)).Nodup := by
  induction l generalizing init with
  | nil => simpa
  | cons hd tl ih => exact ih _ (setV_keys_nodup _ _ _ h)

theorem propsOfTypeFuel_keys_nodup (ctx : Ctx) (fuel : Nat) (ot : Option TypeDecl) :
    ((propsOfTypeFuel ctx fuel ot).map (·.1)).Nodup := by
  induction fuel generalizing ot with
  | zero =>
      cases ot with
      | none => simp [propsOfTypeFuel]
      | some t => exact foldl_setV_keys_nodup _ _ (by simp)
  | succ n ih =>
      cases ot with
      | none => simp [propsOfTypeFuel]
      | some t =>
          cases hb : t.baseType? with
          | none =>
              simp only [propsOfTypeFuel, hb]
              exact foldl_setV_keys_nodup _ _ (by simp)
          | some b =>
              simp only [propsOfTypeFuel, hb]
              exact foldl_setV_keys_nodup _ _ (ih _)

theorem flatProps_keys_nodup (ctx : Ctx) (t : TypeDecl) :
    ((flatProps ctx t).map (·.1)).Nodup :=
  propsOfTypeFuel_keys_nodup ctx _ _

theorem mem_keysOf_setV {α : Type} (fs : List (String × α)) (k k2 : String) (v : α) :
    k ∈ keysOf (setV fs k2 v) ↔ k = k2 ∨ k ∈ keysOf fs := mem_keys_setV_iff fs k k2 v

theorem mem_props_stStep (ctx : Ctx) (sfx : String) (isCount : Bool) (isKey : List String)
    (acc : List (String × SVal) × List String × St) (kv : String × Element) (k : String)
    (h : k ∈ keysOf acc.1) : k ∈ keysOf (stStep ctx sfx isCount isKey acc kv).1 := by
  unfold stStep
  simp only []
  split_ifs <;>
    first
      | (exfalso; simp_all; done)
      | ((repeat rw [mem_keysOf_setV]); tauto)

theorem req_stStep_notMem (ctx : Ctx) (sfx : String) (isCount : Bool) (isKey : List String)
    (acc : List (String × SVal) × List String × St) (kv : String × Element) (k : String)
    (h : k ∉ acc.2.1) (hne : kv.1 ≠ k) :
    k ∉ (stStep ctx sfx isCount isKey acc kv).2.1 := by
  have happ : k ∉ acc.2.1 ++ [kv.1] := by
    simp only [List.mem_append, List.mem_singleton]
    push_neg
    exact ⟨h, fun hh => hne hh.symm⟩
  unfold stStep
  simp only []
  split_ifs <;>
    first
      | (exfalso; simp_all; done)
      | exact h
      | exact happ
      | exact notMem_removeFirst _ _ _ h
      | exact notMem_removeFirst _ _ _ happ

theorem req_count_stStep (ctx : Ctx) (sfx : String) (isCount : Bool) (isKey : List String)
    (acc : List (String × SVal) × List String × St) (kv : String × Element) (k : String)
    (hc : acc.2.1.count k ≤ 1) (hne : kv.1 ≠ k) :
    (stStep ctx sfx isCount isKey acc kv).2.1.count k ≤ 1 := by
  have happ : (acc.2.1 ++ [kv.1]).count k = acc.2.1.count k := by
    simp [List.count_append, List.count_singleton, hne]
  unfold stStep
  simp only []
  split_ifs <;>
    first
      | (exfalso; simp_all; done)
      | exact hc
      | exact le_of_eq_of_le happ hc
      | exact le_trans (count_removeFirst_le _ _ _) hc
      | exact le_trans (count_removeFirst_le _ _ _) (le_of_eq_of_le happ hc)

theorem stStep_self_create (ctx : Ctx) (isCount : Bool) (isKey : List String)
    (acc : List (String × SVal) × List String × St) (pName : String) (pe : Element)
    (hkind : ¬ pe.kind? = some "NavigationProperty")
    (hcd : pe.computedDefault = true) (hc : pe.computed = false)
    (hperm : ¬ pe.permissions? = some "Read")
    (hcount : acc.2.1.count pName ≤ 1)
    (hM : pe.fieldControl? = some "Mandatory" → pName ∉ acc.2.1) :
    pName ∉ (stStep ctx "-create" isCount isKey acc (pName, pe)).2.1 ∧
    pName ∈ keysOf (stStep ctx "-create" isCount isKey acc (pName, pe)).1 := by
  by_cases hMand : pe.fieldControl? = some "Mandatory"
  · have heq : stStep ctx "-create" isCount isKey acc (pName, pe) =
        (setV acc.1 pName (getSchema ctx pe "-create" false false acc.2.2).1,
         removeFirst (acc.2.1 ++ [pName]) pName,
         (getSchema ctx pe "-create" false false acc.2.2).2) := by
      unfold stStep
      simp [hkind, hcd, hc, hperm, hMand]
    rw [heq]
    have h0 : pName ∉ acc.2.1 := hM hMand
    refine ⟨?_, (mem_keysOf_setV _ _ _ _).2 (Or.inl rfl)⟩
    apply notMem_removeFirst_self
    simp [List.count_append, List.count_singleton, List.count_eq_zero.2 h0]
  · have heq : stStep ctx "-create" isCount isKey acc (pName, pe) =
        (setV acc.1 pName (getSchema ctx pe "-create" false false acc.2.2).1,
         removeFirst acc.2.1 pName,
         (getSchema ctx pe "-create" false false acc.2.2).2) := by
      unfold stStep
      simp [hkind, hcd, hc, hperm, hMand]
    rw [heq]
    exact ⟨notMem_removeFirst_self _ _ hcount, (mem_keysOf_setV _ _ _ _).2 (Or.inl rfl)⟩

theorem stStep_self_update (ctx : Ctx) (isCount : Bool) (isKey : List String)
    (acc : List (String × SVal) × List String × St) (pName : String) (pe : Element)
    (hkind : ¬ pe.kind? = some "NavigationProperty")
    (hc : pe.computed = false) (hperm : ¬ pe.permissions? = some "Read")
    (hkey : isKey.contains pName = false) (himm : pe.immutable = false) :
    pName ∈ keysOf (stStep ctx "-update" isCount isKey acc (pName, pe)).1 := by
  have hkey2 : ¬ pName ∈ isKey := by simpa using hkey
  have heq : (stStep ctx "-update" isCount isKey acc (pName, pe)).1 =
      setV acc.1 pName (getSchema ctx pe "-update" false false acc.2.2).1 := by
    unfold stStep
    simp [hkind, hc, hperm, hkey, hkey2, himm]
  rw [heq]
  exact (mem_keysOf_setV _ _ _ _).2 (Or.inl rfl)

theorem foldl_req_notMem (ctx : Ctx) (sfx : String) (isCount : Bool) (isKey : List String)
    (L : List (String × Element)) (acc : List (String × SVal) × List String × St) (k : String)
    (hk : ∀ kv ∈ L, kv.1 ≠ k) (h : k ∉ acc.2.1) :
    k ∉ (L.foldl (stStep ctx sfx isCount isKey) acc).2.1 := by
  induction L generalizing acc with
  | nil => simpa
  | cons hd tl ih =>
      exact ih _ (fun kv hkv => hk kv (List.mem_cons_of_mem _ hkv))
        (req_stStep_notMem _ _ _ _ _ _ _ h (hk hd (List.mem_cons_self _ _)))

theorem foldl_props_mono (ctx : Ctx) (sfx : String) (isCount : Bool) (isKey : List String)
    (L : List (String × Element)) (acc : List (String × SVal) × List String × St) (k : String)
    (h : k ∈ keysOf acc.1) :
    k ∈ keysOf (L.foldl (stStep ctx sfx isCount isKey) acc).1 := by
  induction L generalizing acc with
  | nil => simpa
  | cons hd tl ih => exact ih _ (mem_props_stStep _ _ _ _ _ _ _ h)

theorem foldl_create_C2 (ctx : Ctx) (isCount : Bool) (isKey : List String)
    (L : List (String × Element)) (acc : List (String × SVal) × List String × St)
    (pName : String) (pe : Element)
    (hnd : (L.map (·.1)).Nodup) (hmem : (pName, pe) ∈ L)
    (hkind : ¬ pe.kind? = some "NavigationProperty")
    (hcd : pe.computedDefault = true) (hc : pe.computed = false)
    (hperm : ¬ pe.permissions? = some "Read")
    (hcount : acc.2.1.count pName ≤ 1)
    (hM : pe.fieldControl? = some "Mandatory" → pName ∉ acc.2.1) :
    pName ∉ (L.foldl (stStep ctx "-create" isCount isKey) acc).2.1 ∧
    pName ∈ keysOf (L.foldl (stStep ctx "-create" isCount isKey) acc).1 := by
  induction L generalizing acc with
  | nil => simp at hmem
  | cons hd tl ih =>
      rw [List.map_cons, List.nodup_cons] at hnd
      rw [List.foldl_cons]
      rcases List.mem_cons.1 hmem with heq | hmem2
      · rw [← heq] at hnd ⊢
        have hself := stStep_self_create ctx isCount isKey acc pName pe hkind hcd hc hperm
          hcount hM
        have hktl : ∀ kv ∈ tl, kv.1 ≠ pName := by
          intro kv hkv hkeq
          exact hnd.1 (hkeq ▸ List.mem_map_of_mem (·.1) hkv)
        constructor
        · exact foldl_req_notMem _ _ _ _ tl _ _ hktl hself.1
        · exact foldl_props_mono _ _ _ _ tl _ _ hself.2
      · have hne : hd.1 ≠ pName := by
          intro hkeq
          exact hnd.1 (hkeq ▸ List.mem_map_of_mem (·.1) hmem2)
        exact ih _ hnd.2 hmem2 (req_count_stStep _ _ _ _ _ _ _ hcount hne)
          (fun hMand => req_stStep_notMem _ _ _ _ _ _ _ (hM hMand) hne)

theorem foldl_update_propsIn (ctx : Ctx) (isCount : Bool) (isKey : List String)
    (L : List (String × Element)) (acc : List (String × SVal) × List String × St)
    (pName : String) (pe : Element)
    (hmem : (pName, pe) ∈ L)
    (hkind : ¬ pe.kind? = some "NavigationProperty")
    (hc : pe.computed = false) (hperm : ¬ pe.permissions? = some "Read")
    (hkey : isKey.contains pName = false) (himm : pe.immutable = false) :
    pName ∈ keysOf (L.foldl (stStep ctx "-update" isCount isKey) acc).1 := by
  induction L generalizing acc with
  | nil => simp at hmem
  | cons hd tl ih =>
      rw [List.foldl_cons]
      rcases List.mem_cons.1 hmem with heq | hmem2
      · rw [← heq]
        exact foldl_props_mono _ _ _ _ tl _ _
          (stStep_self_update ctx isCount isKey acc pName pe hkind hc hperm hkey himm)
      · exact ih _ hmem2

theorem isObj_setKey (s : SVal) (k : String) (v : SVal) (h : s.isObj = true) :
    (s.setKey k v).isObj = true := by
  cases s <;> simp_all [SVal.isObj, SVal.setKey]

theorem getKey_setKey_self_obj (s : SVal) (k : String) (v : SVal) (h : s.isObj = true) :
    (s.setKey k v).getKey k = some v := by
  cases s <;> simp_all [SVal.isObj]
  exact getKey_setKey_self _ _ _

theorem isObj_odmExtensions (t : TypeDecl) (s : SVal) (h : s.isObj = true) :
    (odmExtensions t s).isObj = true := by
  cases hA : t.odmEntityName? <;> cases hB : t.odmOid? <;>
    simp only [odmExtensions, hA, hB]
  all_goals try split_ifs
  all_goals simp [isObj_setKey, h]

theorem isObj_erExtFold (t : TypeDecl) (tbl : List (String × String)) (s : SVal)
    (h : s.isObj = true) : (tbl.foldl (erExtStep t) s).isObj = true := by
  induction tbl generalizing s with
  | nil => simpa
  | cons hd tl ih =>
      have step : (hd :: tl).foldl (erExtStep t) s = tl.foldl (erExtStep t) (erExtStep t s hd) := by
        simp
      rw [step]
      apply ih
      unfold erExtStep
      cases alookup t.erAnns hd.1 with
      | none => exact h
      | some v => by_cases hv : svalTruthy v <;> simp [hv, isObj_setKey, h]

theorem getKey_stSchemaVal_properties (t : TypeDecl) (suffix name : String)
    (props : List (String × SVal)) (req : List String) (anyOf? : Option (List SVal)) :
    (stSchemaVal t suffix name props req anyOf?).getKey "properties" =
      if props.isEmpty = false then some (.objV props) else none := by
  simp only [stSchemaVal]
  have e1 : ∀ s : SVal,
      (match anyOf? with
       | some l => s.setKey "anyOf" (.arrV l)
       | none => s).getKey "properties" = s.getKey "properties" := by
    intro s; cases anyOf? <;>
      simp [getKey_setKey_ne _ _ _ _ (by decide : ("properties" : String) ≠ "anyOf")]
  rw [e1]
  have e2 : ∀ s : SVal,
      (match strT t.elem.longDesc? with
       | some d => s.setKey "description" (.strV d)
       | none => s).getKey "properties" = s.getKey "properties" := by
    intro s; cases strT t.elem.longDesc? <;>
      simp [getKey_setKey_ne _ _ _ _ (by decide : ("properties" : String) ≠ "description")]
  rw [e2]
  have e3 : ∀ s : SVal,
      (if suffix = "-create" ∧ req.isEmpty = false then
        s.setKey "required" (.arrV ((dedupFirst req).map .strV))
       else s).getKey "properties" = s.getKey "properties" := by
    intro s; split_ifs with hc
    · exact getKey_setKey_ne _ _ _ _ (by decide)
    · rfl
  rw [e3]
  rw [getKey_erExtensions t _ _ (by decide), getKey_odmExtensions t _ _ (by decide) (by decide)]
  have e4 : ∀ s : SVal,
      (if suffix = "" ∧ optTruthy t.odmRoot? = true then
        s.setKey "x-sap-root-entity" (t.odmRoot?.getD .nullV)
       else s).getKey "properties" = s.getKey "properties" := by
    intro s; split_ifs with hc
    · exact getKey_setKey_ne _ _ _ _ (by decide)
    · rfl
  rw [e4]
  split_ifs with hp
  · exact getKey_setKey_self _ _ _
  · simp [SVal.getKey, alookup]

theorem propKeys_stSchemaVal (t : TypeDecl) (suffix name : String)
    (props : List (String × SVal)) (req : List String) (anyOf? : Option (List SVal)) :
    propKeys (stSchemaVal t suffix name props req anyOf?) =
      if props.isEmpty = false then keysOf props else [] := by
  unfold propKeys
  rw [getKey_stSchemaVal_properties]
  split_ifs <;> simp

theorem getKey_stSchemaVal_required_create (t : TypeDecl) (name : String)
    (props : List (String × SVal)) (req : List String) (anyOf? : Option (List SVal)) :
    (stSchemaVal t "-create" name props req anyOf?).getKey "required" =
      if req.isEmpty = false then some (.arrV ((dedupFirst req).map .strV)) else none := by
  simp only [stSchemaVal]
  have e1 : ∀ s : SVal,
      (match anyOf? with
       | some l => s.setKey "anyOf" (.arrV l)
       | none => s).getKey "required" = s.getKey "required" := by
    intro s; cases anyOf? <;>
      simp [getKey_setKey_ne _ _ _ _ (by decide : ("required" : String) ≠ "anyOf")]
  rw [e1]
  have e2 : ∀ s : SVal,
      (match strT t.elem.longDesc? with
       | some d => s.setKey "description" (.strV d)
       | none => s).getKey "required" = s.getKey "required" := by
    intro s; cases strT t.elem.longDesc? <;>
      simp [getKey_setKey_ne _ _ _ _ (by decide : ("required" : String) ≠ "description")]
  rw [e2]
  simp only [eq_self_iff_true, true_and]
  by_cases hre : req.isEmpty = false
  · rw [if_pos hre, if_pos hre]
    rw [getKey_setKey_self_obj]
    apply isObj_erExtFold
    apply isObj_odmExtensions
    split_ifs <;> (repeat apply isObj_setKey) <;> rfl
  · rw [if_neg hre, if_neg hre]
    rw [getKey_erExtensions t _ _ (by decide),
        getKey_odmExtensions t _ _ (by decide) (by decide)]
    have e4 : ∀ s : SVal,
        (if ("-create" : String) = "" ∧ optTruthy t.odmRoot? = true then
          s.setKey "x-sap-root-entity" (t.odmRoot?.getD .nullV)
         else s).getKey "required" = s.getKey "required" := by
      intro s; split_ifs with hc
      · exact getKey_setKey_ne _ _ _ _ (by decide)
      · rfl
    rw [e4]
    have e5 : ∀ s : SVal,
        (if props.isEmpty = false then s.setKey "properties" (.objV props) else s).getKey "required"
          = s.getKey "required" := by
      intro s; split_ifs with hc
      · exact getKey_setKey_ne _ _ _ _ (by decide)
      · rfl
    rw [e5]
    simp [SVal.getKey, alookup]

theorem dedupFirstAux_spec (l : List String) : ∀ seen : List String,
    (dedupFirstAux seen l).Nodup ∧ ∀ x ∈ dedupFirstAux seen l, ¬ x ∈ seen := by
  induction l with
  | nil => intro seen; simp [dedupFirstAux]
  | cons hd tl ih =>
      intro seen
      by_cases hs : seen.contains hd
      · have hr : dedupFirstAux seen (hd :: tl) = dedupFirstAux seen tl := by
          unfold dedupFirstAux
          rw [if_pos hs]
          cases tl <;> rfl
        rw [hr]
        exact ih seen
      · have hr : dedupFirstAux seen (hd :: tl) = hd :: dedupFirstAux (seen ++ [hd]) tl := by
          unfold dedupFirstAux
          rw [if_neg hs]
          cases tl <;> rfl
        rw [hr]
        have h2 := ih (seen ++ [hd])
        constructor
        · rw [List.nodup_cons]
          refine ⟨fun hmem => ?_, h2.1⟩
          exact h2.2 hd hmem (by simp)
        · intro x hx hxs
          rcases List.mem_cons.1 hx with heq | hx2
          · exact absurd (by simpa using hxs) (by subst heq; simpa using hs)
          · exact h2.2 x hx2 (by simp [hxs])

theorem dedupFirst_nodup (l : List String) : (dedupFirst l).Nodup :=
  (dedupFirstAux_spec l []).1

theorem keyMap_count_le_one (ctx : Ctx) (t : TypeDecl) (x : String) :
    (keyMap ctx t).count x ≤ 1 :=
  List.nodup_iff_count_le_one.1 (dedupFirst_nodup _) x

theorem filterMap_strV (l : List String) :
    (l.map SVal.strV).filterMap (fun v => match v with | .strV x => some x | _ => none) = l := by
  induction l with
  | nil => simp
  | cons hd tl ih => simp [ih]

theorem stStep_update_inv (ctx : Ctx) (isCount : Bool) (isKey : List String)
    (acc : List (String × SVal) × List String × St) (kv : String × Element)
    (hnav : kv.2.kind? = some "NavigationProperty" → ¬ kv.1 ∈ isKey)
    (hinv : ∀ k ∈ keysOf acc.1, ¬ k ∈ isKey) :
    ∀ k ∈ keysOf (stStep ctx "-update" isCount isKey acc kv).1, ¬ k ∈ isKey := by
  intro k hk
  unfold stStep at hk
  simp only [] at hk
  split_ifs at hk <;>
    first
      | (exfalso; simp_all; done)
      | exact hinv k hk
      | (rcases (mem_keysOf_setV _ _ _ _).1 hk with heq | hold
          <;> first
            | (subst heq; first | exact hnav (by assumption) | simp_all)
            | exact hinv k hold)

theorem foldl_update_inv (ctx : Ctx) (isCount : Bool) (isKey : List String)
    (L : List (String × Element)) (acc : List (String × SVal) × List String × St)
    (hnavL : ∀ kv ∈ L, kv.2.kind? = some "NavigationProperty" → ¬ kv.1 ∈ isKey)
    (hinv : ∀ k ∈ keysOf acc.1, ¬ k ∈ isKey) :
    ∀ k ∈ keysOf (L.foldl (stStep ctx "-update" isCount isKey) acc).1, ¬ k ∈ isKey := by
  induction L generalizing acc with
  | nil => simpa
  | cons hd tl ih =>
      rw [List.foldl_cons]
      exact ih _ (fun kv hkv => hnavL kv (List.mem_cons_of_mem _ hkv))
        (stStep_update_inv ctx isCount isKey acc hd (hnavL hd (List.mem_cons_self _ _)) hinv)

/-- C3 witness: the read variant of a one-key entity type carries no
`required` key. -/
theorem claim_C3_witness :
    (("" : String) = "" ∨ ("" : String) = "-update") ∧
    ((schemasForStructuredType {} "S" "T" { kind? := some "EntityType", keyList := ["ID"], props := [("ID", { type? := some "Edm.Int32" })] } "" {}).1.2).getKey "required" = none :=
  ⟨Or.inl rfl,
   claim_C3 {} "S" "T" { kind? := some "EntityType", keyList := ["ID"], props := [("ID", { type? := some "Edm.Int32" })] } "" {} (Or.inl rfl)⟩

/-- C2 counterexample: a non-navigation property carrying only the
`Core.ComputedDefaultValue` annotation is NOT excluded from the properties
map of the `-create` variant (the create/update inclusion check of the live
`schemasForStructuredType` tests only `Core.Permissions: Read` and
`Core.Computed`), although it is kept out of `required`. -/
theorem claim_C2_counterexample :
    "total" ∈ propKeys ((schemasForStructuredType {} "S" "T" { kind? := some "EntityType", keyList := ["ID"], props := [("ID", { type? := some "Edm.Int32" }), ("total", { type? := some "Edm.Int32", computedDefault := true })] } "-create" {}).1.2) ∧
    ¬ "total" ∈ reqStrs ((schemasForStructuredType {} "S" "T" { kind? := some "EntityType", keyList := ["ID"], props := [("ID", { type? := some "Edm.Int32" }), ("total", { type? := some "Edm.Int32", computedDefault := true })] } "-create" {}).1.2) := by
  decide

/-- C2 (amended): a non-navigation property annotated
`Core.ComputedDefaultValue` (and neither `Core.Computed` nor
`Core.Permissions: Read`) is removed from the `required` list of the
`-create` variant (provided it is not both a key and `Common.FieldControl:
Mandatory`, in which case one of its two `required` entries survives), but
it remains in the properties map of the `-create` variant, and of the
`-update` variant when it is neither a key nor `Core.Immutable`. -/
theorem claim_C2 (ctx : Ctx) (qualifier name : String) (t : TypeDecl) (st st2 : St)
    (pName : String) (pe : Element)
    (halo : alookup (flatProps ctx t) pName = some pe)
    (hkind : ¬ pe.kind? = some "NavigationProperty")
    (hcd : pe.computedDefault = true) (hc : pe.computed = false)
    (hperm : ¬ pe.permissions? = some "Read")
    (hM : pe.fieldControl? = some "Mandatory" → ¬ pName ∈ keyMap ctx t) :
    ¬ pName ∈ reqStrs ((schemasForStructuredType ctx qualifier name t "-create" st).1.2) ∧
    pName ∈ propKeys ((schemasForStructuredType ctx qualifier name t "-create" st).1.2) ∧
    ((keyMap ctx t).contains pName = false → pe.immutable = false →
      pName ∈ propKeys ((schemasForStructuredType ctx qualifier name t "-update" st2).1.2)) := by
  have hnd := flatProps_keys_nodup ctx t
  have hmem := alookup_mem _ _ _ halo
  simp only [schemasForStructuredType]
  obtain ⟨hreqN, hpropsIn⟩ :=
    foldl_create_C2 ctx (!((alookup ctx.csdl.nonCountable qualifier).getD []).contains name)
      (keyMap ctx t) (flatProps ctx t) ([], keyMap ctx t, st) pName pe hnd hmem hkind hcd hc
      hperm (keyMap_count_le_one ctx t pName) hM
  refine ⟨?_, ?_, ?_⟩
  · unfold reqStrs
    rw [getKey_stSchemaVal_required_create]
    split_ifs with hre
    · simp only []
      rw [filterMap_strV]
      intro hmem2
      exact hreqN (mem_of_mem_dedupFirst _ _ hmem2)
    · simp
  · rw [propKeys_stSchemaVal]
    split_ifs with hfp
    · exact hpropsIn
    · exfalso
      rw [Bool.not_eq_false, List.isEmpty_iff] at hfp
      rw [hfp] at hpropsIn
      simp [keysOf] at hpropsIn
  · intro hkc himm
    have hin := foldl_update_propsIn ctx
      (!((alookup ctx.csdl.nonCountable qualifier).getD []).contains name)
      (keyMap ctx t) (flatProps ctx t) ([], keyMap ctx t, st2) pName pe hmem hkind hc hperm
      hkc himm
    rw [propKeys_stSchemaVal]
    split_ifs with hfp
    · exact hin
    · exfalso
      rw [Bool.not_eq_false, List.isEmpty_iff] at hfp
      rw [hfp] at hin
      simp [keysOf] at hin

/-- C2 witness: the amended claim at the counterexample model. -/
theorem claim_C2_witness :
    ¬ "total" ∈ reqStrs ((schemasForStructuredType {} "S" "T" { kind? := some "EntityType", keyList := ["ID"], props := [("ID", { type? := some "Edm.Int32" }), ("total", { type? := some "Edm.Int32", computedDefault := true })] } "-create" {}).1.2) :=
  (claim_C2 {} "S" "T" { kind? := some "EntityType", keyList := ["ID"], props := [("ID", { type? := some "Edm.Int32" }), ("total", { type? := some "Edm.Int32", computedDefault := true })] } {} {} "total" { type? := some "Edm.Int32", computedDefault := true } rfl (by decide) rfl rfl (by decide) (by intro h; exact absurd h (by decide))).1

/-- C4: no property of an entity type's effective key set appears in the
properties map of its `-update` variant; the input is assumed well formed in
that no key-named property is a navigation property. -/
theorem claim_C4 (ctx : Ctx) (qualifier name : String) (t : TypeDecl) (st : St)
    (hwf : ∀ pn ∈ keyMap ctx t,
      ¬ (alookup (flatProps ctx t) pn).map Element.kind? = some (some "NavigationProperty")) :
    ∀ k ∈ propKeys ((schemasForStructuredType ctx qualifier name t "-update" st).1.2),
      ¬ k ∈ keyMap ctx t := by
  have hnd := flatProps_keys_nodup ctx t
  simp only [schemasForStructuredType]
  intro k hk
  rw [propKeys_stSchemaVal] at hk
  split_ifs at hk with hfp
  · refine foldl_update_inv ctx _ (keyMap ctx t) (flatProps ctx t) ([], keyMap ctx t, st)
      ?_ (by simp [keysOf]) k hk
    intro kv hkv hknav hkmem
    have halo := alookup_of_mem_nodup _ _ _ hnd hkv
    exact hwf kv.1 hkmem (by rw [halo]; simpa using hknav)
  · simp at hk

theorem refFn_fst (ctx : Ctx) (ty sfx : String) (st : St) :
    (refFn ctx ty sfx st).1 = .objV [("$ref", .strV (refString ctx ty sfx))] := by
  unfold refFn refString
  split_ifs <;> rfl

theorem baseSchema_nonEdm_shape (ctx : Ctx) (e : Element) (sfx : String) (st : St) (t : String)
    (hT : e.type? = some t) (hEdm : strStartsWith t "Edm." = false) :
    (∃ R, (baseSchema ctx e sfx st).1 = SVal.objV [("$ref", SVal.strV R)]) ∨
    (∃ R q, (baseSchema ctx e sfx st).1 =
      SVal.objV [("allOf", SVal.arrV [SVal.objV [("$ref", SVal.strV R)]]), ("maxLength", SVal.numV q)]) := by
  unfold baseSchema
  rw [hT]
  split
  all_goals try (exfalso; simp_all; done)
  all_goals try (exfalso; simp_all; revert hEdm; decide)
  · simp_all only [Option.some.injEq]
    simp only [Bool.false_eq_true, if_false]
    cases hml : e.maxLength? with
    | none =>
        left
        simp only [hml]
        exact ⟨_, refFn_fst ctx _ _ st⟩
    | some n =>
        by_cases hn : n ≠ 0
        · right
          simp only [hml]
          rw [if_pos hn]
          exact ⟨_, _, by first | rfl | rw [refFn_fst]⟩
        · left
          simp only [hml]
          rw [if_neg hn]
          exact ⟨_, by first | rfl | rw [refFn_fst]⟩

theorem getKey_applyFuncLiteral (e : Element) (ff : Bool) (s : SVal) (k : String)
    (h1 : k ≠ "example") (h2 : k ≠ "pattern") (h3 : k ≠ "default") :
    (applyFuncLiteral e ff s).getKey k = s.getKey k := by
  unfold applyFuncLiteral
  simp only []
  repeat' split
  all_goals first
    | (exfalso; simp_all; done)
    | simp [getKey_setKey_ne _ _ _ _ h1, getKey_setKey_ne _ _ _ _ h2,
        getKey_setKey_ne _ _ _ _ h3]

theorem getKey_applyVMax_gen (e : Element) (s : SVal) (k : String)
    (href : s.getKey "$ref" = none) (h1 : k ≠ "anyOf") (h2 : k ≠ "exclusiveMaximum") :
    (applyVMax e s).getKey k = s.getKey k := by
  unfold applyVMax
  cases e.vMax? with
  | none => rfl
  | some m =>
      simp only [wrapIfRef_of_no_ref _ href]
      repeat' split
      all_goals first
        | (exfalso; simp_all; done)
        | simp [getKey_setKey_ne _ _ _ _ h1, getKey_setKey_ne _ _ _ _ h2]

theorem getKey_applyVMin_gen (e : Element) (s : SVal) (k : String)
    (href : s.getKey "$ref" = none) (h1 : k ≠ "anyOf") (h2 : k ≠ "exclusiveMinimum") :
    (applyVMin e s).getKey k = s.getKey k := by
  unfold applyVMin
  cases e.vMin? with
  | none => rfl
  | some m =>
      simp only [wrapIfRef_of_no_ref _ href]
      repeat' split
      all_goals first
        | (exfalso; simp_all; done)
        | simp [getKey_setKey_ne _ _ _ _ h1, getKey_setKey_ne _ _ _ _ h2]

theorem getKey_post_nullable (e : Element) (fp ff : Bool) (s : SVal) (k : String)
    (href : s.getKey "$ref" = none) (hColl : e.coll = false)
    (h1 : k ≠ "default") (h2 : k ≠ "example") (h3 : k ≠ "pattern") (h4 : k ≠ "anyOf")
    (h5 : k ≠ "exclusiveMaximum") (h6 : k ≠ "exclusiveMinimum") (h7 : k ≠ "description")
    (h8 : k ≠ "x-sap-odm-oid-reference-entity-name")
    (h9 : ∀ ext ∈ erTable.map (·.2), k ≠ ext) :
    (erPassthrough e.erAnns (applyOdmOidRef e (applyDescription e fp (applyCollection e
      (applyVMin e (applyVMax e (applyFuncLiteral e ff (applyExample e
      (applyDefault e s))))))))).getKey k = s.getKey k := by
  have n1 : (applyDefault e s).getKey "$ref" = none := by
    rw [getKey_applyDefault e _ "$ref" href (by decide)]; exact href
  have n2 : (applyExample e (applyDefault e s)).getKey "$ref" = none := by
    rw [getKey_applyExample e _ "$ref" n1 (by decide)]; exact n1
  have n3 : (applyFuncLiteral e ff (applyExample e (applyDefault e s))).getKey "$ref"
      = none := by
    rw [getKey_applyFuncLiteral e ff _ "$ref" (by decide) (by decide) (by decide)]; exact n2
  have n4 : (applyVMax e (applyFuncLiteral e ff (applyExample e
      (applyDefault e s)))).getKey "$ref" = none := by
    rw [getKey_applyVMax_gen e _ "$ref" n3 (by decide) (by decide)]; exact n3
  have n5 : (applyVMin e (applyVMax e (applyFuncLiteral e ff (applyExample e
      (applyDefault e s))))).getKey "$ref" = none := by
    rw [getKey_applyVMin_gen e _ "$ref" n4 (by decide) (by decide)]; exact n4
  rw [applyCollection_false e _ hColl]
  rw [getKey_erPassthrough _ _ _ h9, getKey_applyOdmOidRef e _ _ h8,
      getKey_applyDescription e fp _ _ n5 h7, getKey_applyVMin_gen e _ _ n4 h4 h6,
      getKey_applyVMax_gen e _ _ n3 h4 h5,
      getKey_applyFuncLiteral e ff _ _ h2 h3 h1,
      getKey_applyExample e _ _ n1 h2, getKey_applyDefault e _ _ href h1]

theorem applyNullable_of_ref (e : Element) (s : SVal) (hNul : e.nullable = true)
    (h : (s.getKey "$ref").isSome) :
    applyNullable e s = SVal.objV [("allOf", .arrV [s]), ("nullable", .boolV true)] := by
  simp only [applyNullable, hNul, if_true, wrapIfRef, h]
  rfl

theorem applyNullable_of_no_ref (e : Element) (s : SVal) (hNul : e.nullable = true)
    (h : s.getKey "$ref" = none) :
    applyNullable e s = s.setKey "nullable" (.boolV true) := by
  simp only [applyNullable, hNul, if_true, wrapIfRef_of_no_ref _ h]

/-- C4 witness: at an entity with key `ID` and a containment navigation
property, `ID` does not appear in the `-update` properties. -/
theorem claim_C4_witness :
    (∀ pn ∈ keyMap {} { kind? := some "EntityType", keyList := ["ID"], props := [("ID", { type? := some "Edm.Int32" }), ("items", { type? := some "S.I", kind? := some "NavigationProperty", containsTarget := true })] },
      ¬ (alookup (flatProps {} { kind? := some "EntityType", keyList := ["ID"], props := [("ID", { type? := some "Edm.Int32" }), ("items", { type? := some "S.I", kind? := some "NavigationProperty", containsTarget := true })] }) pn).map Element.kind? = some (some "NavigationProperty")) ∧
    (∀ k ∈ propKeys ((schemasForStructuredType {} "S" "T" { kind? := some "EntityType", keyList := ["ID"], props := [("ID", { type? := some "Edm.Int32" }), ("items", { type? := some "S.I", kind? := some "NavigationProperty", containsTarget := true })] } "-update" {}).1.2),
      ¬ k ∈ keyMap {} { kind? := some "EntityType", keyList := ["ID"], props := [("ID", { type? := some "Edm.Int32" }), ("items", { type? := some "S.I", kind? := some "NavigationProperty", containsTarget := true })] }) :=
  ⟨by decide,
   claim_C4 {} "S" "T" { kind? := some "EntityType", keyList := ["ID"], props := [("ID", { type? := some "Edm.Int32" }), ("items", { type? := some "S.I", kind? := some "NavigationProperty", containsTarget := true })] } {} (by decide)⟩

/-- C5: for a nullable, non-collection element whose declared type is a
model (non-`Edm.`) type — so the type dispatch yields a reference object —
`getSchema` returns a schema carrying `nullable: true` whose reference sits
inside a one-element `allOf`, with no top-level `$ref` sibling of
`nullable`. -/
theorem claim_C5 (ctx : Ctx) (e : Element) (sfx : String) (fp ff : Bool) (st : St)
    (t : String) (hT : e.type? = some t) (hEdm : strStartsWith t "Edm." = false)
    (hNul : e.nullable = true) (hColl : e.coll = false) :
    getBool ((getSchema ctx e sfx fp ff st).1) "nullable" = some true ∧
    ((getSchema ctx e sfx fp ff st).1).getKey "$ref" = none ∧
    ∃ h R, getArr ((getSchema ctx e sfx fp ff st).1) "allOf" = some [h] ∧
      getStr h "$ref" = some R := by
  have hgs : (getSchema ctx e sfx fp ff st).1
      = erPassthrough e.erAnns (applyOdmOidRef e (applyDescription e fp (applyCollection e
        (applyVMin e (applyVMax e (applyFuncLiteral e ff (applyExample e (applyDefault e
        (applyNullable e (applyAllowedVals e (baseSchema ctx e sfx st).1)))))))))) := by
    rw [getSchema_eq]
  rw [hgs]
  rcases baseSchema_nonEdm_shape ctx e sfx st t hT hEdm with ⟨R, hB⟩ | ⟨R, q, hB⟩
  · have hS1 : (applyAllowedVals e (baseSchema ctx e sfx st).1).getKey "$ref"
        = some (.strV R) := by
      rw [getKey_applyAllowedVals e _ "$ref" (by decide), hB]; rfl
    have hw : applyNullable e (applyAllowedVals e (baseSchema ctx e sfx st).1)
        = SVal.objV [("allOf", .arrV [applyAllowedVals e (baseSchema ctx e sfx st).1]),
                     ("nullable", .boolV true)] :=
      applyNullable_of_ref e _ hNul (by rw [hS1]; rfl)
    have href0 : (applyNullable e (applyAllowedVals e
        (baseSchema ctx e sfx st).1)).getKey "$ref" = none := by
      rw [hw]; rfl
    have hknull := getKey_post_nullable e fp ff _ "nullable" href0 hColl (by decide)
      (by decide) (by decide) (by decide) (by decide) (by decide) (by decide) (by decide)
      (by decide)
    have hkref := getKey_post_nullable e fp ff _ "$ref" href0 hColl (by decide)
      (by decide) (by decide) (by decide) (by decide) (by decide) (by decide) (by decide)
      (by decide)
    have hkall := getKey_post_nullable e fp ff _ "allOf" href0 hColl (by decide)
      (by decide) (by decide) (by decide) (by decide) (by decide) (by decide) (by decide)
      (by decide)
    refine ⟨?_, ?_, ?_⟩
    · simp only [getBool]
      rw [hknull, hw]
      rfl
    · rw [hkref, href0]
    · refine ⟨applyAllowedVals e (baseSchema ctx e sfx st).1, R, ?_, ?_⟩
      · simp only [getArr]
        rw [hkall, hw]
        rfl
      · simp only [getStr, hS1]
  · have hS1ref : (applyAllowedVals e (baseSchema ctx e sfx st).1).getKey "$ref" = none := by
      rw [getKey_applyAllowedVals e _ "$ref" (by decide), hB]; rfl
    have hS1all : (applyAllowedVals e (baseSchema ctx e sfx st).1).getKey "allOf"
        = some (.arrV [SVal.objV [("$ref", .strV R)]]) := by
      rw [getKey_applyAllowedVals e _ "allOf" (by decide), hB]; rfl
    have hobj : (applyAllowedVals e (baseSchema ctx e sfx st).1).isObj = true := by
      cases hav : e.allowedVals? <;> simp only [applyAllowedVals, hav]
      · rw [hB]; rfl
      · exact isObj_setKey _ _ _ (by rw [hB]; rfl)
    have hw : applyNullable e (applyAllowedVals e (baseSchema ctx e sfx st).1)
        = (applyAllowedVals e (baseSchema ctx e sfx st).1).setKey "nullable" (.boolV true) :=
      applyNullable_of_no_ref e _ hNul hS1ref
    have href0 : (applyNullable e (applyAllowedVals e
        (baseSchema ctx e sfx st).1)).getKey "$ref" = none := by
      rw [hw, getKey_setKey_ne _ _ _ _ (by decide)]; exact hS1ref
    have hknullv : (applyNullable e (applyAllowedVals e
        (baseSchema ctx e sfx st).1)).getKey "nullable" = some (.boolV true) := by
      rw [hw, getKey_setKey_self_obj _ _ _ hobj]
    have hallv : (applyNullable e (applyAllowedVals e
        (baseSchema ctx e sfx st).1)).getKey "allOf"
        = some (.arrV [SVal.objV [("$ref", .strV R)]]) := by
      rw [hw, getKey_setKey_ne _ _ _ _ (by decide)]; exact hS1all
    have hknull := getKey_post_nullable e fp ff _ "nullable" href0 hColl (by decide)
      (by decide) (by decide) (by decide) (by decide) (by decide) (by decide) (by decide)
      (by decide)
    have hkref := getKey_post_nullable e fp ff _ "$ref" href0 hColl (by decide)
      (by decide) (by decide) (by decide) (by decide) (by decide) (by decide) (by decide)
      (by decide)
    have hkall := getKey_post_nullable e fp ff _ "allOf" href0 hColl (by decide)
      (by decide) (by decide) (by decide) (by decide) (by decide) (by decide) (by decide)
      (by decide)
    refine ⟨?_, ?_, ⟨SVal.objV [("$ref", .strV R)], R, ?_, ?_⟩⟩
    · simp only [getBool]
      rw [hknull, hknullv]
    · rw [hkref, href0]
    · simp only [getArr]
      rw [hkall, hallv]
    · rfl

/-- C5 witness: a nullable property typed by a model type gets its
reference wrapped in `allOf` with a `nullable: true` sibling and no
top-level `$ref`. -/
theorem claim_C5_witness :
    getBool ((getSchema {} { type? := some "S.A", nullable := true } "" false false {}).1) "nullable" = some true ∧
    ((getSchema {} { type? := some "S.A", nullable := true } "" false false {}).1).getKey "$ref" = none ∧
    ∃ h R, getArr ((getSchema {} { type? := some "S.A", nullable := true } "" false false {}).1) "allOf" = some [h] ∧
      getStr h "$ref" = some R :=
  claim_C5 {} { type? := some "S.A", nullable := true } "" false false {} "S.A" rfl
    (by decide) rfl rfl

/-! ## Reference-collection lemmas -/

theorem strApp_empty (s : String) : s ++ "" = s := String.ext (List.append_nil _)

theorem hasDot_of_mem {s : String} (h : Char.ofNat 46 ∈ s.toList) : hasDot s = true := by
  have hc : Char.ofNat 46 = ('.' : Char) := by decide
  rw [hc] at h
  unfold hasDot
  exact List.elem_eq_true_of_mem h

theorem hasDot_keyOfRS (r : RS) : hasDot (keyOfRS r) = true := by
  apply hasDot_of_mem
  show Char.ofNat 46 ∈ (r.ns.data ++ [Char.ofNat 46] ++ r.name.data) ++ r.suffix.data
  simp

theorem hasDot_qual (a b : String) : hasDot (a ++ "." ++ b) = true := by
  apply hasDot_of_mem
  show Char.ofNat 46 ∈ a.data ++ [Char.ofNat 46] ++ b.data
  simp

theorem ne_ref_of_hasDot {k : String} (h : hasDot k = true) : k ≠ "$ref" := by
  intro he
  subst he
  exact absurd h (by decide)

theorem refAt_ne (k : String) (v : SVal) (h : k ≠ "$ref") : refAt k v = [] := by
  simp [refAt, h]

theorem refAt_objV (k : String) (fs : List (String × SVal)) : refAt k (.objV fs) = [] := by
  by_cases h : k = "$ref" <;> simp [refAt, h]

theorem refAt_arrV (k : String) (vs : List SVal) : refAt k (.arrV vs) = [] := by
  by_cases h : k = "$ref" <;> simp [refAt, h]

theorem refAt_boolV (k : String) (b : Bool) : refAt k (.boolV b) = [] := by
  by_cases h : k = "$ref" <;> simp [refAt, h]

theorem refAt_numV (k : String) (q : ℚ) : refAt k (.numV q) = [] := by
  by_cases h : k = "$ref" <;> simp [refAt, h]

theorem refAt_nullV (k : String) : refAt k .nullV = [] := by
  by_cases h : k = "$ref" <;> simp [refAt, h]

theorem refsInFields_append (a b : List (String × SVal)) :
    refsInFields (a ++ b) = refsInFields a ++ refsInFields b := by
  induction a with
  | nil => rfl
  | cons hd tl ih =>
      obtain ⟨k, v⟩ := hd
      simp [refsInFields, ih]

theorem refsInArr_append (a b : List SVal) :
    refsInArr (a ++ b) = refsInArr a ++ refsInArr b := by
  induction a with
  | nil => rfl
  | cons hd tl ih => simp [refsInArr, ih]

theorem refsInArr_map_strV (l : List String) : refsInArr (l.map .strV) = [] := by
  induction l with
  | nil => rfl
  | cons hd tl ih => simp [refsInArr, refsIn, ih]

theorem refsIn_alookup {fs : List (String × SVal)} {k : String} {v : SVal}
    (h : alookup fs k = some v) : ∀ r ∈ refsIn v, r ∈ refsInFields fs := by
  induction fs with
  | nil => cases h
  | cons hd tl ih =>
      obtain ⟨a, b⟩ := hd
      intro r hr
      by_cases hk : a = k
      · rw [alookup, if_pos hk] at h
        cases h
        simp [refsInFields, List.mem_append]
        tauto
      · rw [alookup, if_neg hk] at h
        simp [refsInFields, List.mem_append]
        exact Or.inr (Or.inr (ih h r hr))

theorem refsIn_getKey {s : SVal} {k : String} {v : SVal} (h : s.getKey k = some v) :
    ∀ r ∈ refsIn v, r ∈ refsIn s := by
  cases s <;> try cases h
  exact refsIn_alookup h

theorem refsIn_setV_sub (fs : List (String × SVal)) (k : String) (v : SVal) :
    ∀ r ∈ refsInFields (setV fs k v),
      r ∈ refAt k v ∨ r ∈ refsIn v ∨ r ∈ refsInFields fs := by
  induction fs with
  | nil =>
      intro r hr
      simp [setV, refsInFields, List.mem_append] at hr
      tauto
  | cons hd tl ih =>
      obtain ⟨a, b⟩ := hd
      intro r hr
      by_cases hk : a = k
      · rw [setV, if_pos hk] at hr
        subst hk
        simp [refsInFields, List.mem_append] at hr
        rcases hr with h1 | h2 | h3
        · exact Or.inl h1
        · exact Or.inr (Or.inl h2)
        · exact Or.inr (Or.inr (by simp [refsInFields, List.mem_append]; tauto))
      · rw [setV, if_neg hk] at hr
        simp [refsInFields, List.mem_append] at hr
        rcases hr with h1 | h2 | h3
        · exact Or.inr (Or.inr (by simp [refsInFields, List.mem_append]; tauto))
        · exact Or.inr (Or.inr (by simp [refsInFields, List.mem_append]; tauto))
        · rcases ih r h3 with h4 | h5 | h6
          · exact Or.inl h4
          · exact Or.inr (Or.inl h5)
          · exact Or.inr (Or.inr (by simp [refsInFields, List.mem_append]; tauto))

theorem refsIn_setKey_sub (s : SVal) (k : String) (v : SVal) :
    ∀ r ∈ refsIn (s.setKey k v), r ∈ refAt k v ∨ r ∈ refsIn v ∨ r ∈ refsIn s := by
  cases s with
  | objV fs => exact refsIn_setV_sub fs k v
  | _ => intro r hr; exact Or.inr (Or.inr hr)

theorem refsIn_setKey_clean (s : SVal) (k : String) (v : SVal)
    (hk : refAt k v = []) (hv : refsIn v = []) :
    ∀ r ∈ refsIn (s.setKey k v), r ∈ refsIn s := by
  intro r hr
  rcases refsIn_setKey_sub s k v r hr with h1 | h2 | h3
  · rw [hk] at h1; cases h1
  · rw [hv] at h2; cases h2
  · exact h3

theorem refsIn_wrapIfRef (s : SVal) : refsIn (wrapIfRef s) = refsIn s := by
  unfold wrapIfRef
  split
  · simp [refsIn, refsInFields, refsInArr, refAt_arrV]
  · rfl

theorem cleanElem_parts {e : Element} (h : cleanElem e = true) :
    noRefsO e.defaultV? = true ∧ noRefsO e.exampleV? = true ∧
    (match e.allowedVals? with
     | some vs => (refsInArr vs).isEmpty
     | none => true) = true ∧
    noRefsO e.jsonSchemaAnn? = true ∧ (refsInFields e.erAnns).isEmpty = true := by
  simp only [cleanElem, Bool.and_eq_true] at h
  tauto

theorem noRefsO_some {v : SVal} (h : noRefsO (some v) = true) : refsIn v = [] := by
  simpa [noRefsO, List.isEmpty_iff] using h

theorem refsIn_applyAllowedVals (e : Element) (s : SVal) (hcl : cleanElem e = true) :
    ∀ r ∈ refsIn (applyAllowedVals e s), r ∈ refsIn s := by
  unfold applyAllowedVals
  cases hav : e.allowedVals? with
  | none => intro r hr; exact hr
  | some vs =>
      have hvs : refsInArr vs = [] := by
        have h3 := (cleanElem_parts hcl).2.2.1
        rw [hav] at h3
        simpa [List.isEmpty_iff] using h3
      exact refsIn_setKey_clean s "enum" (.arrV vs) (refAt_arrV _ _)
        (by simp [refsIn, hvs])

theorem refsIn_applyNullable (e : Element) (s : SVal) :
    ∀ r ∈ refsIn (applyNullable e s), r ∈ refsIn s := by
  unfold applyNullable
  split
  · intro r hr
    have h2 := refsIn_setKey_clean (wrapIfRef s) "nullable" (.boolV true)
      (refAt_boolV _ _) rfl r hr
    rwa [refsIn_wrapIfRef] at h2
  · intro r hr; exact hr

theorem refsIn_applyDefault (e : Element) (s : SVal) (hcl : cleanElem e = true) :
    ∀ r ∈ refsIn (applyDefault e s), r ∈ refsIn s := by
  unfold applyDefault
  cases hdv : e.defaultV? with
  | none => intro r hr; exact hr
  | some v =>
      have hv : refsIn v = [] := by
        have h1 := (cleanElem_parts hcl).1
        rw [hdv] at h1
        exact noRefsO_some h1
      intro r hr
      have h2 := refsIn_setKey_clean (wrapIfRef s) "default" v
        (refAt_ne _ _ (by decide)) hv r hr
      rwa [refsIn_wrapIfRef] at h2

theorem refsIn_applyExample (e : Element) (s : SVal) (hcl : cleanElem e = true) :
    ∀ r ∈ refsIn (applyExample e s), r ∈ refsIn s := by
  unfold applyExample
  cases hev : e.exampleV? with
  | none => intro r hr; exact hr
  | some v =>
      have hv : refsIn v = [] := by
        have h1 := (cleanElem_parts hcl).2.1
        rw [hev] at h1
        exact noRefsO_some h1
      intro r hr
      have h2 := refsIn_setKey_clean (wrapIfRef s) "example" v
        (refAt_ne _ _ (by decide)) hv r hr
      rwa [refsIn_wrapIfRef] at h2

theorem refsIn_setKey_strV (s : SVal) (k x : String) (hk : k ≠ "$ref") :
    ∀ r ∈ refsIn (s.setKey k (.strV x)), r ∈ refsIn s :=
  refsIn_setKey_clean s k (.strV x) (refAt_ne _ _ hk) rfl

theorem refsIn_applyFuncLiteral (e : Element) (ff : Bool) (s : SVal) :
    ∀ r ∈ refsIn (applyFuncLiteral e ff s), r ∈ refsIn s := by
  unfold applyFuncLiteral
  cases ff with
  | false => intro r hr; exact hr
  | true =>
      intro r hr
      simp only [if_true] at hr
      repeat' split at hr
      all_goals
        repeat first
          | exact hr
          | (replace hr := refsIn_setKey_strV _ _ _ (by decide) r hr)

theorem refsIn_applyVMax (e : Element) (s : SVal) :
    ∀ r ∈ refsIn (applyVMax e s), r ∈ refsIn s := by
  unfold applyVMax
  cases e.vMax? with
  | none => intro r hr; exact hr
  | some m =>
      intro r hr
      simp only [] at hr
      rw [← refsIn_wrapIfRef s]
      split at hr
      case _ =>
        split at hr
        case _ h t heq =>
          rcases refsIn_setKey_sub _ _ _ r
              (refsIn_setKey_clean _ "exclusiveMaximum" _ (refAt_boolV _ _) rfl r hr)
            with h1 | h2 | h3
          · rw [refAt_arrV] at h1; cases h1
          · have h4 : r ∈ refsIn (SVal.arrV (h :: t)) := by
              simp only [refsIn, refsInArr] at h2 ⊢
              rw [List.mem_append] at h2 ⊢
              rcases h2 with h5 | h6
              · exact Or.inl (refsIn_setKey_clean _ "maximum" _ (refAt_numV _ _) rfl r h5)
              · exact Or.inr h6
            exact refsIn_getKey heq r h4
          · exact h3
        case _ =>
          exact refsIn_setKey_clean _ "exclusiveMaximum" _ (refAt_boolV _ _) rfl r hr
      case _ =>
        split at hr
        case _ h t heq =>
          rcases refsIn_setKey_sub _ _ _ r hr with h1 | h2 | h3
          · rw [refAt_arrV] at h1; cases h1
          · have h4 : r ∈ refsIn (SVal.arrV (h :: t)) := by
              simp only [refsIn, refsInArr] at h2 ⊢
              rw [List.mem_append] at h2 ⊢
              rcases h2 with h5 | h6
              · exact Or.inl (refsIn_setKey_clean _ "maximum" _ (refAt_numV _ _) rfl r h5)
              · exact Or.inr h6
            exact refsIn_getKey heq r h4
          · exact h3
        case _ =>
          exact hr

theorem refsIn_applyVMin (e : Element) (s : SVal) :
    ∀ r ∈ refsIn (applyVMin e s), r ∈ refsIn s := by
  unfold applyVMin
  cases e.vMin? with
  | none => intro r hr; exact hr
  | some m =>
      intro r hr
      simp only [] at hr
      rw [← refsIn_wrapIfRef s]
      split at hr
      case _ =>
        split at hr
        case _ h t heq =>
          rcases refsIn_setKey_sub _ _ _ r
              (refsIn_setKey_clean _ "exclusiveMinimum" _ (refAt_boolV _ _) rfl r hr)
            with h1 | h2 | h3
          · rw [refAt_arrV] at h1; cases h1
          · have h4 : r ∈ refsIn (SVal.arrV (h :: t)) := by
              simp only [refsIn, refsInArr] at h2 ⊢
              rw [List.mem_append] at h2 ⊢
              rcases h2 with h5 | h6
              · exact Or.inl (refsIn_setKey_clean _ "minimum" _ (refAt_numV _ _) rfl r h5)
              · exact Or.inr h6
            exact refsIn_getKey heq r h4
          · exact h3
        case _ =>
          exact refsIn_setKey_clean _ "exclusiveMinimum" _ (refAt_boolV _ _) rfl r hr
      case _ =>
        split at hr
        case _ h t heq =>
          rcases refsIn_setKey_sub _ _ _ r hr with h1 | h2 | h3
          · rw [refAt_arrV] at h1; cases h1
          · have h4 : r ∈ refsIn (SVal.arrV (h :: t)) := by
              simp only [refsIn, refsInArr] at h2 ⊢
              rw [List.mem_append] at h2 ⊢
              rcases h2 with h5 | h6
              · exact Or.inl (refsIn_setKey_clean _ "minimum" _ (refAt_numV _ _) rfl r h5)
              · exact Or.inr h6
            exact refsIn_getKey heq r h4
          · exact h3
        case _ =>
          exact hr

theorem refsIn_applyCollection (e : Element) (s : SVal) :
    ∀ r ∈ refsIn (applyCollection e s), r ∈ refsIn s := by
  unfold applyCollection
  split
  · intro r hr
    simpa [refsIn, refsInFields, refAt] using hr
  · intro r hr; exact hr

theorem refsIn_applyDescription (e : Element) (fp : Bool) (s : SVal) :
    ∀ r ∈ refsIn (applyDescription e fp s), r ∈ refsIn s := by
  unfold applyDescription
  split
  · intro r hr; exact hr
  · cases strT e.longDesc? with
    | none => intro r hr; exact hr
    | some d =>
        intro r hr
        have h2 := refsIn_setKey_clean (wrapIfRef s) "description" (.strV d)
          (refAt_ne _ _ (by decide)) rfl r hr
        rwa [refsIn_wrapIfRef] at h2

theorem refsIn_applyOdmOidRef (e : Element) (s : SVal) :
    ∀ r ∈ refsIn (applyOdmOidRef e s), r ∈ refsIn s := by
  unfold applyOdmOidRef
  cases strT e.odmOidRef? with
  | none => intro r hr; exact hr
  | some n =>
      exact refsIn_setKey_clean s _ _ (refAt_ne _ _ (by decide)) rfl

theorem refsIn_erPassthrough (anns : List (String × SVal)) (s : SVal)
    (h : refsInFields anns = []) :
    ∀ r ∈ refsIn (erPassthrough anns s), r ∈ refsIn s := by
  induction anns generalizing s with
  | nil => intro r hr; exact hr
  | cons hd tl ih =>
      obtain ⟨k, v⟩ := hd
      have hparts : refsIn v = [] ∧ refsInFields tl = [] := by
        simp only [refsInFields, List.append_eq_nil] at h
        tauto
      intro r hr
      have hfold : erPassthrough ((k, v) :: tl) s = erPassthrough tl (erStep s (k, v)) := by
        simp [erPassthrough]
      rw [hfold] at hr
      have h1 := ih (erStep s (k, v)) hparts.2 r hr
      unfold erStep at h1
      split at h1
      · split at h1
        case _ ext hext =>
          have hall : ∀ p ∈ erTable, p.2 ≠ "$ref" := by decide
          exact refsIn_setKey_clean s ext v
            (refAt_ne _ _ (hall _ (alookup_mem _ _ _ hext))) hparts.1 r h1
        case _ => exact h1
      · exact h1

theorem getSchema_snd (ctx : Ctx) (e : Element) (sfx : String) (fp ff : Bool) (st : St) :
    (getSchema ctx e sfx fp ff st).2 = (baseSchema ctx e sfx st).2 := by
  rw [getSchema_eq]

theorem getSchema_refs_sub (ctx : Ctx) (e : Element) (sfx : String) (fp ff : Bool) (st : St)
    (hcl : cleanElem e = true) :
    ∀ r ∈ refsIn (getSchema ctx e sfx fp ff st).1, r ∈ refsIn (baseSchema ctx e sfx st).1 := by
  have hgs : (getSchema ctx e sfx fp ff st).1
      = erPassthrough e.erAnns (applyOdmOidRef e (applyDescription e fp (applyCollection e
        (applyVMin e (applyVMax e (applyFuncLiteral e ff (applyExample e (applyDefault e
        (applyNullable e (applyAllowedVals e (baseSchema ctx e sfx st).1)))))))))) := by
    rw [getSchema_eq]
  intro r hr
  rw [hgs] at hr
  have her : refsInFields e.erAnns = [] := by
    have h5 := (cleanElem_parts hcl).2.2.2.2
    simpa [List.isEmpty_iff] using h5
  replace hr := refsIn_erPassthrough _ _ her r hr
  replace hr := refsIn_applyOdmOidRef e _ r hr
  replace hr := refsIn_applyDescription e fp _ r hr
  replace hr := refsIn_applyCollection e _ r hr
  replace hr := refsIn_applyVMin e _ r hr
  replace hr := refsIn_applyVMax e _ r hr
  replace hr := refsIn_applyFuncLiteral e ff _ r hr
  replace hr := refsIn_applyExample e _ hcl r hr
  replace hr := refsIn_applyDefault e _ hcl r hr
  replace hr := refsIn_applyNullable e _ r hr
  exact refsIn_applyAllowedVals e _ hcl r hr

/-! ## State-extension and registration lemmas -/

theorem strApp_assoc (a b c : String) : a ++ b ++ c = a ++ (b ++ c) :=
  String.ext (List.append_assoc _ _ _)

theorem mem_of_contains {l : List String} {x : String} (h : l.contains x = true) : x ∈ l :=
  List.mem_of_elem_eq_true h

theorem stExt_refl (st : St) : stExt st st :=
  ⟨⟨[], by simp, by simp⟩, fun h => h⟩

theorem stExt_trans {a b c : St} (h1 : stExt a b) (h2 : stExt b c) : stExt a c := by
  obtain ⟨⟨l1, hl1, hu1⟩, hg1⟩ := h1
  obtain ⟨⟨l2, hl2, hu2⟩, hg2⟩ := h2
  exact ⟨⟨l1 ++ l2, by rw [hl2, hl1, List.append_assoc],
    by rw [hu2, hu1, List.map_append, List.append_assoc]⟩, fun h => hg2 (hg1 h)⟩

theorem refOk_mono {st st2 : St} (h : stExt st st2) {r : String}
    (hok : refOk st.used st.geoPoint r) : refOk st2.used st2.geoPoint r := by
  obtain ⟨⟨l, hl, hu⟩, hg⟩ := h
  rcases hok with h1 | ⟨h2, hgeo⟩ | ⟨k, hk, hr⟩
  · exact Or.inl h1
  · exact Or.inr (Or.inl ⟨h2, hg hgeo⟩)
  · exact Or.inr (Or.inr ⟨k, by rw [hu]; exact List.mem_append_left _ hk, hr⟩)

theorem refsIn_refObj (x : String) : refsIn (SVal.objV [("$ref", .strV x)]) = [x] := rfl

theorem refFn_nodot (ctx : Ctx) (ty sfx : String) (st : St) (h : hasDot ty = false) :
    refFn ctx ty sfx st
      = (.objV [("$ref", .strV ("#/components/schemas/" ++ ty ++ sfx))], st) := by
  unfold refFn
  rw [h]
  rfl

theorem contains_of_mem {l : List String} {x : String} (h : x ∈ l) : l.contains x = true :=
  List.elem_eq_true_of_mem h

theorem refFn_dot (ctx : Ctx) (ty sfx : String) (st : St)
    (hdot : hasDot ty = true) (hurl : ctx.nsUrl = []) :
    ∃ k, (refFn ctx ty sfx st).1 = .objV [("$ref", .strV ("#/components/schemas/" ++ k))] ∧
      k ∈ ((refFn ctx ty sfx st).2).used ∧ stExt st (refFn ctx ty sfx st).2 ∧
      ((refFn ctx ty sfx st).2).geoPoint = st.geoPoint := by
  have hx : strEndsWith "" ".xml" = false := by decide
  by_cases hc : st.used.contains
      ((alookup ctx.nsMap (nameParts ty).1).getD "undefined" ++ "." ++ (nameParts ty).2 ++ sfx)
      = false
  · have hre : refFn ctx ty sfx st
        = (.objV [("$ref", .strV ("" ++ "#/components/schemas/"
              ++ ((alookup ctx.nsMap (nameParts ty).1).getD "undefined" ++ "." ++ (nameParts ty).2)
              ++ sfx))],
           { st with
              used := st.used ++ [(alookup ctx.nsMap (nameParts ty).1).getD "undefined"
                ++ "." ++ (nameParts ty).2 ++ sfx],
              list := st.list ++ [⟨(alookup ctx.nsMap (nameParts ty).1).getD "undefined",
                (nameParts ty).2, sfx⟩] }) := by
      simp [refFn, hdot, hurl, hx, hc, alookup]
      intro hmem
      have h2 := contains_of_mem hmem
      rw [hc] at h2
      exact Bool.noConfusion h2
    refine ⟨(alookup ctx.nsMap (nameParts ty).1).getD "undefined" ++ "." ++ (nameParts ty).2
      ++ sfx, ?_, ?_, ?_, ?_⟩
    · rw [hre]
      rfl
    · rw [hre]
      simp
    · rw [hre]
      exact ⟨⟨[⟨(alookup ctx.nsMap (nameParts ty).1).getD "undefined", (nameParts ty).2, sfx⟩],
        rfl, rfl⟩, fun h => h⟩
    · rw [hre]
  · have hc2 : st.used.contains
        ((alookup ctx.nsMap (nameParts ty).1).getD "undefined" ++ "." ++ (nameParts ty).2 ++ sfx)
        = true := by
      rw [← Bool.not_eq_false]
      exact hc
    have hre : refFn ctx ty sfx st
        = (.objV [("$ref", .strV ("" ++ "#/components/schemas/"
              ++ ((alookup ctx.nsMap (nameParts ty).1).getD "undefined" ++ "." ++ (nameParts ty).2)
              ++ sfx))], st) := by
      simp [refFn, hdot, hurl, hx, hc2, alookup]
      intro hmem
      exact absurd (mem_of_contains hc2) hmem
    refine ⟨(alookup ctx.nsMap (nameParts ty).1).getD "undefined" ++ "." ++ (nameParts ty).2
      ++ sfx, ?_, ?_, ?_, ?_⟩
    · rw [hre]
      rfl
    · rw [hre]
      exact mem_of_contains hc2
    · rw [hre]
      exact stExt_refl st
    · rw [hre]

theorem refOk_refFnPair (ctx : Ctx) (t SFX : String) (st : St)
    (hdot : hasDot t = true) (hurl : ctx.nsUrl = []) :
    stExt st (refFn ctx t SFX st).2 ∧
    ∀ r ∈ refsIn (refFn ctx t SFX st).1,
      refOk ((refFn ctx t SFX st).2).used ((refFn ctx t SFX st).2).geoPoint r := by
  obtain ⟨k, h1, h2, h3, h4⟩ := refFn_dot ctx t SFX st hdot hurl
  refine ⟨h3, ?_⟩
  intro r hr
  rw [h1, refsIn_refObj] at hr
  exact Or.inr (Or.inr ⟨k, h2, List.mem_singleton.mp hr⟩)

theorem refOk_refFnWrap (ctx : Ctx) (t SFX : String) (st : St) (q : ℚ)
    (hdot : hasDot t = true) (hurl : ctx.nsUrl = []) :
    stExt st (refFn ctx t SFX st).2 ∧
    ∀ r ∈ refsIn (SVal.objV [("allOf", .arrV [(refFn ctx t SFX st).1]),
        ("maxLength", .numV q)]),
      refOk ((refFn ctx t SFX st).2).used ((refFn ctx t SFX st).2).geoPoint r := by
  obtain ⟨k, h1, h2, h3, h4⟩ := refFn_dot ctx t SFX st hdot hurl
  refine ⟨h3, ?_⟩
  intro r hr
  rw [h1] at hr
  have h6 : refsIn (SVal.objV [("allOf",
      .arrV [SVal.objV [("$ref", .strV ("#/components/schemas/" ++ k))]]),
      ("maxLength", .numV q)]) = ["#/components/schemas/" ++ k] := rfl
  rw [h6] at hr
  exact Or.inr (Or.inr ⟨k, h2, List.mem_singleton.mp hr⟩)

theorem baseSchema_refs (ctx : Ctx) (e : Element) (sfx : String) (st : St)
    (hurl : ctx.nsUrl = []) (hel : wfElem e = true) :
    stExt st (baseSchema ctx e sfx st).2 ∧
    ∀ r ∈ refsIn (baseSchema ctx e sfx st).1,
      refOk ((baseSchema ctx e sfx st).2).used ((baseSchema ctx e sfx st).2).geoPoint r := by
  have hcl : cleanElem e = true := by
    simp only [wfElem, Bool.and_eq_true] at hel
    exact hel.1
  have hdoe : dotOrEdm e.type? = true := by
    simp only [wfElem, Bool.and_eq_true] at hel
    exact hel.2
  obtain ⟨v, st2, hB⟩ : ∃ v st2, baseSchema ctx e sfx st = (v, st2) := ⟨_, _, rfl⟩
  rw [hB]
  unfold baseSchema at hB
  split at hB
  all_goals try simp only [] at hB
  all_goals repeat' split at hB
  all_goals injection hB with hb1 hb2
  all_goals subst hb1
  all_goals subst hb2
  all_goals try exact ⟨stExt_refl st, fun r hr => absurd hr (List.not_mem_nil r)⟩
  all_goals first
    | (refine ⟨stExt_refl st, ?_⟩
       intro r hr
       exfalso
       rename_i js heq
       have h5 := (cleanElem_parts hcl).2.2.2.1
       rw [heq] at h5
       rw [noRefsO_some h5] at hr
       exact absurd hr (List.not_mem_nil r))
    | (rw [refFn_nodot ctx "geoPoint" "" st (by decide)]
       exact ⟨⟨⟨[], by simp, by simp⟩, fun _ => rfl⟩,
         fun r hr => Or.inr (Or.inl ⟨Or.inl (List.mem_singleton.mp hr), rfl⟩)⟩)
    | (simp_all only [dotOrEdm, Bool.or_eq_true, Bool.not_eq_true]
       rcases hdoe with h9 | h9
       · exact absurd h9 (by decide)
       · first
           | exact refOk_refFnPair ctx _ _ st h9 hurl
           | exact refOk_refFnWrap ctx _ _ st _ h9 hurl)

theorem getSchema_full_refs (ctx : Ctx) (e : Element) (sfx : String) (fp ff : Bool) (st : St)
    (hurl : ctx.nsUrl = []) (hel : wfElem e = true) :
    stExt st (getSchema ctx e sfx fp ff st).2 ∧
    ∀ r ∈ refsIn (getSchema ctx e sfx fp ff st).1,
      refOk ((getSchema ctx e sfx fp ff st).2).used
        ((getSchema ctx e sfx fp ff st).2).geoPoint r := by
  have hcl : cleanElem e = true := by
    simp only [wfElem, Bool.and_eq_true] at hel
    exact hel.1
  obtain ⟨h1, h2⟩ := baseSchema_refs ctx e sfx st hurl (by
    simp only [wfElem, Bool.and_eq_true]
    simp only [wfElem, Bool.and_eq_true] at hel
    exact hel)
  rw [getSchema_snd]
  refine ⟨h1, ?_⟩
  intro r hr
  exact h2 r (getSchema_refs_sub ctx e sfx fp ff st hcl r hr)

/-! ## Well-formedness propagation -/

theorem ne_ref_of_isIdent {k : String} (h : isIdent k = true) : k ≠ "$ref" := by
  intro he
  subst he
  exact absurd h (by decide)

theorem ne_ref_of_at {k : String} (h : Char.ofNat 64 ∈ k.toList) : k ≠ "$ref" := by
  intro he
  subst he
  revert h
  decide

theorem mem_setV {α : Type} {fs : List (String × α)} {k : String} {v : α} {x : String × α}
    (h : x ∈ setV fs k v) : x = (k, v) ∨ x ∈ fs := by
  induction fs with
  | nil => simpa [setV] using h
  | cons hd tl ih =>
      obtain ⟨a, b⟩ := hd
      by_cases hk : a = k
      · rw [setV, if_pos hk] at h
        rcases List.mem_cons.mp h with h1 | h2
        · subst hk
          exact Or.inl h1
        · exact Or.inr (List.mem_cons_of_mem _ h2)
      · rw [setV, if_neg hk] at h
        rcases List.mem_cons.mp h with h1 | h2
        · exact Or.inr (by rw [h1]; exact List.mem_cons_self _ _)
        · rcases ih h2 with h3 | h4
          · exact Or.inl h3
          · exact Or.inr (List.mem_cons_of_mem _ h4)

theorem mem_foldl_setV {α : Type} {l : List (String × α)} {init : List (String × α)}
    {x : String × α}
    (h : x ∈ l.foldl (fun acc kv => setV acc kv.1 kv.2) init) : x ∈ l ∨ x ∈ init := by
  induction l generalizing init with
  | nil => exact Or.inr h
  | cons hd tl ih =>
      obtain ⟨a, b⟩ := hd
      rw [List.foldl_cons] at h
      rcases ih h with h1 | h2
      · exact Or.inl (List.mem_cons_of_mem _ h1)
      · rcases mem_setV h2 with h3 | h4
        · exact Or.inl (by rw [h3]; exact List.mem_cons_self _ _)
        · exact Or.inr h4

theorem wfType_parts {t : TypeDecl} (h : wfType t = true) :
    (∀ kv ∈ t.props, isIdent kv.1 = true ∧ wfElem kv.2 = true) ∧
    noRefsO t.odmRoot? = true ∧ noRefsO t.odmEntityName? = true ∧
    noRefsO t.odmOid? = true ∧
    (refsInFields t.erAnns).isEmpty = true ∧ (refsInFields t.openapiExt).isEmpty = true ∧
    (∀ kv ∈ t.openapiExt, strStartsWith kv.1 "x-" = true) ∧
    wfElem t.elem = true ∧ dotOrEdm t.underlyingType? = true := by
  simp only [wfType, Bool.and_eq_true, List.all_eq_true] at h
  tauto

theorem modelElement_wf {ctx : Ctx} {q : String} {td : TypeDecl}
    (hwf : wfCtx ctx = true) (h : modelElement ctx q = some td) : wfType td = true := by
  have hall : ∀ ns ∈ ctx.csdl.schemaList, ∀ p ∈ ns.2, wfType p.2 = true := by
    simp only [wfCtx, Bool.and_eq_true, List.all_eq_true] at hwf
    exact hwf.1.1
  unfold modelElement at h
  simp only [] at h
  split at h
  case _ s hs =>
      have hsmem : ∃ nskey, (nskey, s) ∈ ctx.csdl.schemaList := by
        split at hs
        case _ s0 hs0 =>
            cases hs
            exact ⟨_, alookup_mem _ _ _ hs0⟩
        case _ hs0 =>
            split at hs
            case _ ns hns => exact ⟨_, alookup_mem _ _ _ hs⟩
            case _ => cases hs
      obtain ⟨nsk, hns⟩ := hsmem
      exact hall (nsk, s) hns _ (alookup_mem _ _ _ h)
  case _ => cases h

theorem wf_flatProps {ctx : Ctx} {t : TypeDecl} (hwf : wfCtx ctx = true)
    (ht : wfType t = true) :
    ∀ kv ∈ flatProps ctx t, isIdent kv.1 = true ∧ wfElem kv.2 = true := by
  suffices haux : ∀ fuel t?, (∀ td, t? = some td → wfType td = true) →
      ∀ kv ∈ propsOfTypeFuel ctx fuel t?, isIdent kv.1 = true ∧ wfElem kv.2 = true by
    exact haux _ (some t) (by intro td h; cases h; exact ht)
  intro fuel
  induction fuel with
  | zero =>
      intro t? hwt kv hkv
      cases t? with
      | none => cases hkv
      | some td =>
          rcases mem_foldl_setV hkv with h1 | h2
          · exact (wfType_parts (hwt td rfl)).1 kv h1
          · cases h2
  | succ fuel ih =>
      intro t? hwt kv hkv
      cases t? with
      | none => cases hkv
      | some td =>
          unfold propsOfTypeFuel at hkv
          simp only [] at hkv
          rcases mem_foldl_setV hkv with h1 | h2
          · exact (wfType_parts (hwt td rfl)).1 kv h1
          · cases hbt : td.baseType? with
            | none => rw [hbt] at h2; cases h2
            | some b =>
                rw [hbt] at h2
                exact ih (modelElement ctx b)
                  (fun td2 h3 => modelElement_wf hwf h3) kv h2

theorem stStep_refs (ctx : Ctx) (suffix : String) (isCount : Bool) (isKey : List String)
    (acc : List (String × SVal) × List String × St) (kv : String × Element)
    (hurl : ctx.nsUrl = []) (hel : wfElem kv.2 = true) (hid : isIdent kv.1 = true) :
    stExt acc.2.2 (stStep ctx suffix isCount isKey acc kv).2.2 ∧
    ∀ r ∈ refsInFields (stStep ctx suffix isCount isKey acc kv).1,
      r ∈ refsInFields acc.1 ∨
        refOk ((stStep ctx suffix isCount isKey acc kv).2.2).used
          ((stStep ctx suffix isCount isKey acc kv).2.2).geoPoint r := by
  obtain ⟨z, hz⟩ : ∃ z, stStep ctx suffix isCount isKey acc kv = z := ⟨_, rfl⟩
  rw [hz]
  unfold stStep at hz
  simp only [] at hz
  repeat' split at hz
  all_goals subst hz
  all_goals first
    | (exfalso; simp_all; done)
    | exact ⟨stExt_refl _, fun r hr => Or.inl hr⟩
    | (refine ⟨(getSchema_full_refs ctx _ _ false false _ hurl hel).1, ?_⟩
       intro r hr
       rcases refsIn_setV_sub _ _ _ r hr with h1 | h2 | h3
       · rw [refAt_ne _ _ (ne_ref_of_isIdent hid)] at h1
         exact absurd h1 (List.not_mem_nil r)
       · exact Or.inr ((getSchema_full_refs ctx _ _ false false _ hurl hel).2 r h2)
       · exact Or.inl h3)
    | (refine ⟨(getSchema_full_refs ctx _ _ false false _ hurl hel).1, ?_⟩
       intro r hr
       rcases refsIn_setV_sub _ _ _ r hr with h1 | h2 | h3
       · simp [refFn_nodot ctx "count" "" _ (by decide), refAt_objV] at h1
       · simp only [refFn_nodot ctx "count" "" _ (by decide)] at h2
         rw [refsIn_refObj] at h2
         exact Or.inr (Or.inl (List.mem_singleton.mp h2))
       · rcases refsIn_setV_sub _ _ _ r h3 with h4 | h5 | h6
         · rw [refAt_ne _ _ (ne_ref_of_isIdent hid)] at h4
           exact absurd h4 (List.not_mem_nil r)
         · exact Or.inr ((getSchema_full_refs ctx _ _ false false _ hurl hel).2 r h5)
         · exact Or.inl h6)

theorem refsInFields_nil_mem {anns : List (String × SVal)} (h : refsInFields anns = []) :
    ∀ kv ∈ anns, refsIn kv.2 = [] := by
  induction anns with
  | nil => intro kv hkv; cases hkv
  | cons hd tl ih =>
      obtain ⟨k, v⟩ := hd
      simp only [refsInFields, List.append_eq_nil] at h
      intro kv hkv
      rcases List.mem_cons.mp hkv with h1 | h2
      · rw [h1]
        exact h.1.2
      · exact ih h.2 kv h2

theorem refsIn_erExtFold (t : TypeDecl) (tbl : List (String × String)) (s : SVal)
    (htbl : ∀ p ∈ tbl, p.2 ≠ "$ref") (hanns : refsInFields t.erAnns = []) :
    ∀ r ∈ refsIn (tbl.foldl (erExtStep t) s), r ∈ refsIn s := by
  induction tbl generalizing s with
  | nil => intro r hr; exact hr
  | cons hd tl ih =>
      intro r hr
      rw [List.foldl_cons] at hr
      have h1 := ih (erExtStep t s hd) (fun p hp => htbl p (List.mem_cons_of_mem _ hp)) r hr
      unfold erExtStep at h1
      split at h1
      case _ v hv =>
          split at h1
          · exact refsIn_setKey_clean s _ v
              (refAt_ne _ _ (htbl hd (List.mem_cons_self _ _)))
              (refsInFields_nil_mem hanns _ (alookup_mem _ _ _ hv)) r h1
          · exact h1
      case _ => exact h1

theorem refsIn_erExtensions (t : TypeDecl) (s : SVal)
    (hanns : refsInFields t.erAnns = []) :
    ∀ r ∈ refsIn (erExtensions t s), r ∈ refsIn s :=
  refsIn_erExtFold t erTable s (by decide) hanns

theorem refsIn_odmExtensions (t : TypeDecl) (s : SVal)
    (h1 : noRefsO t.odmEntityName? = true) (h2 : noRefsO t.odmOid? = true) :
    ∀ r ∈ refsIn (odmExtensions t s), r ∈ refsIn s := by
  unfold odmExtensions
  intro r hr
  cases hen : t.odmEntityName? with
  | none =>
      rw [hen] at hr
      cases hoid : t.odmOid? with
      | none =>
          rw [hoid] at hr
          exact hr
      | some v =>
          rw [hoid] at hr h2
          simp only [] at hr
          split_ifs at hr
          · exact refsIn_setKey_clean _ _ _ (refAt_ne _ _ (by decide)) (noRefsO_some h2) r hr
          · exact hr
  | some w =>
      rw [hen] at hr h1
      cases hoid : t.odmOid? with
      | none =>
          rw [hoid] at hr
          simp only [] at hr
          split_ifs at hr
          · exact refsIn_setKey_clean _ _ _ (refAt_ne _ _ (by decide)) (noRefsO_some h1) r hr
          · exact hr
      | some v =>
          rw [hoid] at hr h2
          simp only [] at hr
          split_ifs at hr
          all_goals first
            | exact hr
            | exact refsIn_setKey_clean _ "x-sap-odm-entity-name" w
                (refAt_ne _ _ (by decide)) (noRefsO_some h1) r hr
            | exact refsIn_setKey_clean _ "x-sap-odm-oid" v
                (refAt_ne _ _ (by decide)) (noRefsO_some h2) r hr
            | exact refsIn_setKey_clean _ "x-sap-odm-entity-name" w
                (refAt_ne _ _ (by decide)) (noRefsO_some h1) r
                (refsIn_setKey_clean _ "x-sap-odm-oid" v
                  (refAt_ne _ _ (by decide)) (noRefsO_some h2) r hr)

theorem refsIn_stSchemaVal (t : TypeDecl) (suffix name : String)
    (props : List (String × SVal)) (req : List String) (anyOf? : Option (List SVal))
    (ht : wfType t = true) :
    ∀ r ∈ refsIn (stSchemaVal t suffix name props req anyOf?),
      r ∈ refsInFields props ∨ r ∈ refsInArr (anyOf?.getD []) := by
  have hparts := wfType_parts ht
  have hanns : refsInFields t.erAnns = [] := by
    simpa [List.isEmpty_iff] using hparts.2.2.2.2.1
  have hroot : refsIn (t.odmRoot?.getD SVal.nullV) = [] := by
    cases hrt : t.odmRoot? with
    | none => rfl
    | some v =>
        have := hparts.2.1
        rw [hrt] at this
        exact noRefsO_some this
  intro r hr
  unfold stSchemaVal at hr
  simp only [] at hr
  have hpeel : ∀ X : SVal, r ∈ refsIn
      (match strT t.elem.longDesc? with
       | some d => X.setKey "description" (.strV d)
       | none => X) → r ∈ refsIn X := by
    intro X hX
    cases hld : strT t.elem.longDesc? with
    | none => rw [hld] at hX; exact hX
    | some d => rw [hld] at hX; exact refsIn_setKey_strV X "description" d (by decide) r hX
  cases anyOf? with
  | some l =>
      rcases refsIn_setKey_sub _ _ _ r hr with h1 | h2 | h3
      · rw [refAt_arrV] at h1
        exact absurd h1 (List.not_mem_nil r)
      · exact Or.inr h2
      · replace hr := hpeel _ h3
        clear h3
        refine Or.inl ?_
        split_ifs at hr
        all_goals
          repeat first
            | (replace hr := refsIn_setKey_clean _ "required" _ (refAt_arrV _ _)
                (refsInArr_map_strV _) r hr)
            | (replace hr := refsIn_erExtensions t _ hanns r hr)
            | (replace hr := refsIn_odmExtensions t _ hparts.2.2.1 hparts.2.2.2.1 r hr)
            | (replace hr := refsIn_setKey_clean _ "x-sap-root-entity" _
                (refAt_ne _ _ (by decide)) hroot r hr)
        all_goals first
          | (exfalso; revert hr; simp [refsIn, refsInFields, refAt]; done)
          | (rcases refsIn_setKey_sub _ _ _ r hr with h4 | h5 | h6
             · rw [refAt_objV] at h4
               exact absurd h4 (List.not_mem_nil r)
             · exact h5
             · exfalso
               revert h6
               simp [refsIn, refsInFields, refAt])
  | none =>
      replace hr := hpeel _ hr
      refine Or.inl ?_
      split_ifs at hr
      all_goals
        repeat first
          | (replace hr := refsIn_setKey_clean _ "required" _ (refAt_arrV _ _)
              (refsInArr_map_strV _) r hr)
          | (replace hr := refsIn_erExtensions t _ hanns r hr)
          | (replace hr := refsIn_odmExtensions t _ hparts.2.2.1 hparts.2.2.2.1 r hr)
          | (replace hr := refsIn_setKey_clean _ "x-sap-root-entity" _
              (refAt_ne _ _ (by decide)) hroot r hr)
      all_goals first
        | (exfalso; revert hr; simp [refsIn, refsInFields, refAt]; done)
        | (rcases refsIn_setKey_sub _ _ _ r hr with h4 | h5 | h6
           · rw [refAt_objV] at h4
             exact absurd h4 (List.not_mem_nil r)
           · exact h5
           · exfalso
             revert h6
             simp [refsIn, refsInFields, refAt])

theorem foldl_stStep_refs (ctx : Ctx) (suffix : String) (isCount : Bool) (isKey : List String)
    (l : List (String × Element)) (hurl : ctx.nsUrl = []) :
    ∀ acc, (∀ kv ∈ l, isIdent kv.1 = true ∧ wfElem kv.2 = true) →
      stExt acc.2.2 (l.foldl (stStep ctx suffix isCount isKey) acc).2.2 ∧
      ∀ r ∈ refsInFields (l.foldl (stStep ctx suffix isCount isKey) acc).1,
        r ∈ refsInFields acc.1 ∨
          refOk ((l.foldl (stStep ctx suffix isCount isKey) acc).2.2).used
            ((l.foldl (stStep ctx suffix isCount isKey) acc).2.2).geoPoint r := by
  induction l with
  | nil => intro acc hl; exact ⟨stExt_refl _, fun r hr => Or.inl hr⟩
  | cons hd tl ih =>
      intro acc hl
      rw [List.foldl_cons]
      obtain ⟨hs1, hr1⟩ := stStep_refs ctx suffix isCount isKey acc hd hurl
        (hl hd (List.mem_cons_self _ _)).2 (hl hd (List.mem_cons_self _ _)).1
      obtain ⟨hs2, hr2⟩ := ih (stStep ctx suffix isCount isKey acc hd)
        (fun kv h => hl kv (List.mem_cons_of_mem _ h))
      refine ⟨stExt_trans hs1 hs2, ?_⟩
      intro r hr
      rcases hr2 r hr with h1 | h2
      · rcases hr1 r h1 with h3 | h4
        · exact Or.inl h3
        · exact Or.inr (refOk_mono hs2 h4)
      · exact Or.inr h2

theorem derivedFold_refs (ctx : Ctx) (suffix : String) (l : List String)
    (hurl : ctx.nsUrl = []) (hdot : ∀ d ∈ l, hasDot d = true) :
    ∀ acc : List SVal × St,
      (∀ r ∈ refsInArr acc.1, refOk acc.2.used acc.2.geoPoint r) →
      stExt acc.2 (l.foldl (fun (acc : List SVal × St) dt =>
          let rr := refFn ctx dt suffix acc.2
          (acc.1 ++ [rr.1], rr.2)) acc).2 ∧
      ∀ r ∈ refsInArr (l.foldl (fun (acc : List SVal × St) dt =>
          let rr := refFn ctx dt suffix acc.2
          (acc.1 ++ [rr.1], rr.2)) acc).1,
        refOk ((l.foldl (fun (acc : List SVal × St) dt =>
            let rr := refFn ctx dt suffix acc.2
            (acc.1 ++ [rr.1], rr.2)) acc).2).used
          ((l.foldl (fun (acc : List SVal × St) dt =>
            let rr := refFn ctx dt suffix acc.2
            (acc.1 ++ [rr.1], rr.2)) acc).2).geoPoint r := by
  induction l with
  | nil => intro acc hacc; exact ⟨stExt_refl _, hacc⟩
  | cons hd tl ih =>
      intro acc hacc
      rw [List.foldl_cons]
      obtain ⟨hs1, hr1⟩ := refOk_refFnPair ctx hd suffix acc.2
        (hdot hd (List.mem_cons_self _ _)) hurl
      have hacc2 : ∀ r ∈ refsInArr (acc.1 ++ [(refFn ctx hd suffix acc.2).1]),
          refOk ((refFn ctx hd suffix acc.2).2).used
            ((refFn ctx hd suffix acc.2).2).geoPoint r := by
        intro r hr
        rw [refsInArr_append] at hr
        rcases List.mem_append.mp hr with h1 | h2
        · exact refOk_mono hs1 (hacc r h1)
        · refine hr1 r ?_
          simpa [refsInArr] using h2
      obtain ⟨hs2, hr2⟩ := ih (fun d h => hdot d (List.mem_cons_of_mem _ h))
        (acc.1 ++ [(refFn ctx hd suffix acc.2).1], (refFn ctx hd suffix acc.2).2) hacc2
      exact ⟨stExt_trans hs1 hs2, hr2⟩

theorem sst_refs (ctx : Ctx) (qualifier name : String) (t : TypeDecl) (suffix : String)
    (st : St) (hurl : ctx.nsUrl = []) (hwf : wfCtx ctx = true) (ht : wfType t = true) :
    stExt st (schemasForStructuredType ctx qualifier name t suffix st).2 ∧
    ∀ r ∈ refsIn (schemasForStructuredType ctx qualifier name t suffix st).1.2,
      refOk ((schemasForStructuredType ctx qualifier name t suffix st).2).used
        ((schemasForStructuredType ctx qualifier name t suffix st).2).geoPoint r := by
  obtain ⟨res, hres⟩ : ∃ res, schemasForStructuredType ctx qualifier name t suffix st = res :=
    ⟨_, rfl⟩
  rw [hres]
  unfold schemasForStructuredType at hres
  simp only [] at hres
  obtain ⟨hs1, hr1⟩ := foldl_stStep_refs ctx suffix
    (!((alookup ctx.csdl.nonCountable qualifier).getD []).contains name) (keyMap ctx t)
    (flatProps ctx t) hurl ([], keyMap ctx t, st) (wf_flatProps hwf ht)
  split at hres
  case _ dl hdl =>
      have hdot : ∀ d ∈ dl, hasDot d = true := by
        have hmem := alookup_mem _ _ _ hdl
        simp only [wfCtx, Bool.and_eq_true, List.all_eq_true] at hwf
        exact fun d hd => hwf.1.2 _ hmem d hd
      obtain ⟨hs2, hr2⟩ := derivedFold_refs ctx suffix dl hurl hdot
        ([], ((flatProps ctx t).foldl (stStep ctx suffix
          (!((alookup ctx.csdl.nonCountable qualifier).getD []).contains name)
          (keyMap ctx t)) ([], keyMap ctx t, st)).2.2)
        (fun r hr => absurd hr (List.not_mem_nil r))
      subst hres
      constructor
      · exact stExt_trans hs1 hs2
      · intro r hr
        rcases refsIn_stSchemaVal t suffix name
            ((flatProps ctx t).foldl (stStep ctx suffix
              (!((alookup ctx.csdl.nonCountable qualifier).getD []).contains name)
              (keyMap ctx t)) ([], keyMap ctx t, st)).1
            ((flatProps ctx t).foldl (stStep ctx suffix
              (!((alookup ctx.csdl.nonCountable qualifier).getD []).contains name)
              (keyMap ctx t)) ([], keyMap ctx t, st)).2.1
            (some (if t.abstractFlag = true then
              (dl.foldl (fun (acc : List SVal × St) dt =>
                (acc.1 ++ [(refFn ctx dt suffix acc.2).1], (refFn ctx dt suffix acc.2).2))
                ([], ((flatProps ctx t).foldl (stStep ctx suffix
                  (!((alookup ctx.csdl.nonCountable qualifier).getD []).contains name)
                  (keyMap ctx t)) ([], keyMap ctx t, st)).2.2)).1
              else
              (dl.foldl (fun (acc : List SVal × St) dt =>
                (acc.1 ++ [(refFn ctx dt suffix acc.2).1], (refFn ctx dt suffix acc.2).2))
                ([], ((flatProps ctx t).foldl (stStep ctx suffix
                  (!((alookup ctx.csdl.nonCountable qualifier).getD []).contains name)
                  (keyMap ctx t)) ([], keyMap ctx t, st)).2.2)).1 ++ [SVal.objV []]))
            ht r (by exact hr) with h1 | h2
        · rcases hr1 r h1 with h3 | h4
          · exact absurd h3 (List.not_mem_nil r)
          · exact refOk_mono hs2 h4
        · rw [Option.getD_some] at h2
          split at h2
          · exact hr2 r h2
          · rw [refsInArr_append] at h2
            rcases List.mem_append.mp h2 with h5 | h6
            · exact hr2 r h5
            · exfalso
              revert h6
              simp [refsInArr, refsIn, refsInFields]
  case _ hdl =>
      subst hres
      constructor
      · exact hs1
      · intro r hr
        rcases refsIn_stSchemaVal t suffix name
            ((flatProps ctx t).foldl (stStep ctx suffix
              (!((alookup ctx.csdl.nonCountable qualifier).getD []).contains name)
              (keyMap ctx t)) ([], keyMap ctx t, st)).1
            ((flatProps ctx t).foldl (stStep ctx suffix
              (!((alookup ctx.csdl.nonCountable qualifier).getD []).contains name)
              (keyMap ctx t)) ([], keyMap ctx t, st)).2.1
            none ht r (by exact hr) with h1 | h2
        · rcases hr1 r h1 with h3 | h4
          · exact absurd h3 (List.not_mem_nil r)
          · exact h4
        · exact absurd h2 (List.not_mem_nil r)

end Csdl2OpenApi
